import Mathlib

/-!
# sample-go-app: the `/users` HTTP service

A shallow embedding of `src/sample-go-app/main.go` and proofs about it.

The program is a thin layer over three collaborators that are not part of the
repository: `net/http` (the response writer), `encoding/json` (the wire format)
and `database/sql` over MySQL (the `users` table).  Each collaborator is given
an executable model, next to the program text that uses it:

* strings are sequences of Unicode scalar values (`String`);
* a response writer records the header map, the status line once written, the
  headers as they stood when the status line was written, and the bytes written;
* `json.Marshal` and `Decoder.Decode` follow `encoding/json` for the one type
  the program uses, `User`: the encoder with HTML escaping on, the decoder as
  the scanner of `scanner.go` followed by the struct decoding of `decode.go`;
* the store is the `users` table (or its absence) together with a journal of
  the calls made on the connection; keys are compared as strings and column
  widths are enforced.  What the connection itself may report (a failed
  prepare, a failed exec, a failed query, a failed scan, a broken iteration)
  is a parameter of every handler, so that statements can range over it.

A response body is judged by reading it back: `parseUserArray` reads a body as
a JSON array of `uuid`/`name` objects with the scanner, independently of the
encoder, and `parseUserArray_marshal` shows that it recovers the users from
what `json.Marshal` writes.

The file has three parts: the definitions, lemmas about them, and one theorem
per claim C1 to C10, with its witness or counterexample.
-/

set_option autoImplicit false

namespace SampleGoApp

/-! ## Data model (`main.go` lines 15-18) -/

/-- The `User` struct: `UUID` has the wire name `uuid`, `Name` the wire name `name`. -/
structure User where
  UUID : String
  Name : String
deriving DecidableEq, Repr, Inhabited

/-- A Go slice value: either the `nil` slice (what `var users []User` declares)
or a slice holding the listed elements (possibly none). -/
inductive Slice (α : Type) where
  | nil : Slice α
  | of (elems : List α) : Slice α
deriving DecidableEq, Repr

namespace Slice

/-- The built-in `append(s, x)`: the result is never the `nil` slice. -/
def append {α : Type} (s : Slice α) (x : α) : Slice α :=
  match s with
  | .nil => .of [x]
  | .of xs => .of (xs ++ [x])

/-- The elements of a slice; `nil` has none. -/
def toList {α : Type} (s : Slice α) : List α :=
  match s with
  | .nil => []
  | .of xs => xs

end Slice

/-! ## `net/http`: header map and response writer -/

/-- A header map.  Every key the program uses is already in canonical MIME form,
so `Set`, `Get` and `Del` compare keys as written. -/
structure Header where
  entries : List (String × String)
deriving DecidableEq, Repr

namespace Header

/-- The empty header map of a fresh response. -/
def empty : Header := ⟨[]⟩

/-- Go's `h.Del(key)`. -/
def Del (h : Header) (key : String) : Header :=
  ⟨h.entries.filter (fun p => p.1 != key)⟩

/-- Go's `h.Set(key, value)`: the value replaces whatever the key held. -/
def Set (h : Header) (key value : String) : Header :=
  ⟨(h.Del key).entries ++ [(key, value)]⟩

/-- Go's `h.Get(key)`; `none` when the key is absent. -/
def Get (h : Header) (key : String) : Option String :=
  h.entries.lookup key

end Header

/-- The state of an `http.ResponseWriter` while a handler runs. -/
structure ResponseWriter where
  /-- The map returned by `w.Header()`. -/
  header : Header
  /-- Whether the status line has been written. -/
  wroteHeader : Bool
  /-- The status code written (meaningful once `wroteHeader`). -/
  status : Nat
  /-- The headers as they stood when the status line was written. -/
  sent : Header
  /-- The bytes the handler wrote after the status line. -/
  body : String
deriving DecidableEq, Repr

namespace ResponseWriter

/-- The writer handed to a handler for a new request. -/
def fresh : ResponseWriter :=
  { header := Header.empty, wroteHeader := false, status := 0, sent := Header.empty, body := "" }

/-- Go's `w.Header().Set(key, value)`. -/
def SetHeader (w : ResponseWriter) (key value : String) : ResponseWriter :=
  { w with header := w.header.Set key value }

/-- Go's `w.Header().Del(key)`. -/
def DelHeader (w : ResponseWriter) (key : String) : ResponseWriter :=
  { w with header := w.header.Del key }

/-- Go's `w.WriteHeader(code)`: the first call fixes the status and the headers sent;
a later call is ignored. -/
def WriteHeader (w : ResponseWriter) (code : Nat) : ResponseWriter :=
  if w.wroteHeader then w
  else { w with wroteHeader := true, status := code, sent := w.header }

/-- Go's `w.Write(data)`: writes the status line with 200 first if none was written. -/
def Write (w : ResponseWriter) (data : String) : ResponseWriter :=
  let w1 := if w.wroteHeader then w else w.WriteHeader 200
  { w1 with body := w1.body ++ data }

end ResponseWriter

def StatusOK : Nat := 200
def StatusCreated : Nat := 201
def StatusBadRequest : Nat := 400
def StatusMethodNotAllowed : Nat := 405
def StatusInternalServerError : Nat := 500

/-- Go's `http.Error(w, error, code)`: plain-text headers, the status line, then the
message followed by a newline. -/
def httpError (w : ResponseWriter) (error : String) (code : Nat) : ResponseWriter :=
  let w1 := w.DelHeader "Content-Length"
  let w2 := w1.SetHeader "Content-Type" "text/plain; charset=utf-8"
  let w3 := w2.SetHeader "X-Content-Type-Options" "nosniff"
  let w4 := w3.WriteHeader code
  w4.Write (error ++ "\n")

/-- What the client receives once the handler has returned. -/
structure Response where
  status : Nat
  header : Header
  body : String
deriving DecidableEq, Repr

/-- The server finishing a request: a handler that never wrote a status line gets 200. -/
def finishRequest (w : ResponseWriter) : Response :=
  let w1 := if w.wroteHeader then w else w.WriteHeader 200
  { status := w1.status, header := w1.sent, body := w1.body }

/-- The parts of an `http.Request` the program reads. -/
structure Request where
  Method : String
  Body : String
deriving DecidableEq, Repr

/-! ## `encoding/json`: marshalling `[]User` -/

/-- The digits `encoding/json` uses for `\u00XX`. -/
def hexDigit (n : Nat) : Char :=
  "0123456789abcdef".toList.getD n '0'

/-- The bytes `json.Marshal` (HTML escaping on) writes for one character of a string. -/
def escapeChar (c : Char) : List Char :=
  if c = '\\' ∨ c = '"' then ['\\', c]
  else if c = '\x08' then ['\\', 'b']
  else if c = '\x0c' then ['\\', 'f']
  else if c = '\n' then ['\\', 'n']
  else if c = '\r' then ['\\', 'r']
  else if c = '\t' then ['\\', 't']
  else if c.toNat < 0x20 ∨ c = '<' ∨ c = '>' ∨ c = '&' then
    ['\\', 'u', '0', '0', hexDigit (c.toNat / 16), hexDigit (c.toNat % 16)]
  else if c.toNat = 0x2028 ∨ c.toNat = 0x2029 then
    ['\\', 'u', '2', '0', '2', hexDigit (c.toNat % 16)]
  else [c]

/-- A Go string as a JSON string literal. -/
def marshalString (s : String) : String :=
  String.mk ('"' :: (s.toList.flatMap escapeChar ++ ['"']))

/-- One `User` as a JSON object, fields in declaration order under their wire names. -/
def marshalUser (u : User) : String :=
  "\x7b\"uuid\":" ++ marshalString u.UUID ++ ",\"name\":" ++ marshalString u.Name ++ "\x7d"

/-- A list of already encoded elements as a JSON array. -/
def marshalArray (elems : List String) : String :=
  "[" ++ ",".intercalate elems ++ "]"

/-- Go's `json.Marshal(users)` for `users []User`: the `nil` slice is `null`, any
other slice an array.  Marshalling strings cannot fail, so the result is always `ok`. -/
def jsonMarshal (users : Slice User) : Except String String :=
  match users with
  | .nil => .ok "null"
  | .of us => .ok (marshalArray (us.map marshalUser))

/-! ## `encoding/json`: the scanner (`scanner.go`)

`Decoder.Decode` first runs this byte-at-a-time state machine over the input
to delimit and validate the next JSON value.  The input is read one character
at a time; a character outside ASCII stands for its UTF-8 bytes, of which only
the first can ever be reported in an error. -/

/-- The scanner's result codes. -/
inductive Op where
  | scanContinue | scanBeginLiteral | scanBeginObject | scanObjectKey | scanObjectValue
  | scanEndObject | scanBeginArray | scanArrayValue | scanEndArray | scanSkipSpace
  | scanEnd | scanError
deriving DecidableEq, Repr

/-- What the scanner is in the middle of, one entry per open object or array. -/
inductive ParseState where
  | parseObjectKey | parseObjectValue | parseArrayValue
deriving DecidableEq, Repr

/-- The scanner's `step` functions. -/
inductive Step where
  | stateBeginValueOrEmpty | stateBeginValue | stateBeginStringOrEmpty | stateBeginString
  | stateEndValue | stateEndTop | stateInString | stateInStringEsc
  | stateInStringEscU | stateInStringEscU1 | stateInStringEscU12 | stateInStringEscU123
  | stateNeg | state1 | state0 | stateDot | stateDot0 | stateE | stateESign | stateE0
  | stateT | stateTr | stateTru | stateF | stateFa | stateFal | stateFals
  | stateN | stateNu | stateNul | stateError
deriving DecidableEq, Repr

/-- The scanner: the next step function, whether the top-level value has ended,
the stack of open containers (innermost first) and the error, if any. -/
structure Scanner where
  step : Step
  endTop : Bool
  parseState : List ParseState
  err : Option String
deriving DecidableEq, Repr

def maxNestingDepth : Nat := 10000

/-- The first byte of the UTF-8 encoding of a character. -/
def leadByte (c : Char) : Nat :=
  let n := c.toNat
  if n < 0x80 then n
  else if n < 0x800 then 0xC0 + n / 0x40
  else if n < 0x10000 then 0xE0 + n / 0x1000
  else 0xF0 + n / 0x40000

/-- Go's `quoteChar`: how an offending byte is shown in a syntax error. -/
def quoteChar (c : Char) : String :=
  let b := leadByte c
  if b = 0x27 then "'\\''"
  else if b = 0x22 then "'\"'"
  else if b = 0x5C then "'\\\\'"
  else if b = 7 then "'\\a'"
  else if b = 8 then "'\\b'"
  else if b = 12 then "'\\f'"
  else if b = 10 then "'\\n'"
  else if b = 13 then "'\\r'"
  else if b = 9 then "'\\t'"
  else if b = 11 then "'\\v'"
  else if b < 0x20 ∨ b = 0x7F then
    String.mk ['\'', '\\', 'x', hexDigit (b / 16), hexDigit (b % 16), '\'']
  else String.mk ['\'', Char.ofNat b, '\'']

namespace Scanner

/-- Go's `s.reset()`. -/
def reset : Scanner :=
  { step := .stateBeginValue, endTop := false, parseState := [], err := none }

/-- Go's `s.error(c, context)`. -/
def error (s : Scanner) (c : Char) (context : String) : Scanner × Op :=
  ({ s with step := .stateError,
            err := some ("invalid character " ++ quoteChar c ++ " " ++ context) }, .scanError)

/-- Go's `s.pushParseState(c, newParseState, successState)`, after `s.step` was set to `next`. -/
def pushParseState (s : Scanner) (next : Step) (c : Char) (newParseState : ParseState)
    (successState : Op) : Scanner × Op :=
  let s1 := { s with step := next, parseState := newParseState :: s.parseState }
  if s1.parseState.length ≤ maxNestingDepth then (s1, successState)
  else s1.error c "exceeded max depth"

/-- Go's `s.popParseState()`. -/
def popParseState (s : Scanner) : Scanner :=
  let rest := s.parseState.tail
  if rest.length = 0 then { s with parseState := rest, step := .stateEndTop, endTop := true }
  else { s with parseState := rest, step := .stateEndValue }

def isSpace (c : Char) : Bool :=
  c = ' ' ∨ c = '\t' ∨ c = '\r' ∨ c = '\n'

def isDigit (c : Char) : Bool :=
  '0'.toNat ≤ c.toNat ∧ c.toNat ≤ '9'.toNat

def isHex (c : Char) : Bool :=
  isDigit c ∨ ('a'.toNat ≤ c.toNat ∧ c.toNat ≤ 'f'.toNat)
    ∨ ('A'.toNat ≤ c.toNat ∧ c.toNat ≤ 'F'.toNat)

/-- Go's `stateEndTop`. -/
def stateEndTop (s : Scanner) (c : Char) : Scanner × Op :=
  if !isSpace c then ((s.error c "after top-level value").1, .scanEnd)
  else (s, .scanEnd)

/-- Go's `stateEndValue`. -/
def stateEndValue (s : Scanner) (c : Char) : Scanner × Op :=
  match s.parseState with
  | [] => stateEndTop { s with step := .stateEndTop, endTop := true } c
  | ps :: rest =>
    if isSpace c then ({ s with step := .stateEndValue }, .scanSkipSpace)
    else
      match ps with
      | .parseObjectKey =>
        if c = ':' then
          ({ s with parseState := .parseObjectValue :: rest, step := .stateBeginValue },
            .scanObjectKey)
        else s.error c "after object key"
      | .parseObjectValue =>
        if c = ',' then
          ({ s with parseState := .parseObjectKey :: rest, step := .stateBeginString },
            .scanObjectValue)
        else if c = '}' then (s.popParseState, .scanEndObject)
        else s.error c "after object key:value pair"
      | .parseArrayValue =>
        if c = ',' then ({ s with step := .stateBeginValue }, .scanArrayValue)
        else if c = ']' then (s.popParseState, .scanEndArray)
        else s.error c "after array element"

/-- Go's `stateBeginValue`. -/
def stateBeginValue (s : Scanner) (c : Char) : Scanner × Op :=
  if isSpace c then (s, .scanSkipSpace)
  else if c = '{' then s.pushParseState .stateBeginStringOrEmpty c .parseObjectKey .scanBeginObject
  else if c = '[' then s.pushParseState .stateBeginValueOrEmpty c .parseArrayValue .scanBeginArray
  else if c = '"' then ({ s with step := .stateInString }, .scanBeginLiteral)
  else if c = '-' then ({ s with step := .stateNeg }, .scanBeginLiteral)
  else if c = '0' then ({ s with step := .state0 }, .scanBeginLiteral)
  else if c = 't' then ({ s with step := .stateT }, .scanBeginLiteral)
  else if c = 'f' then ({ s with step := .stateF }, .scanBeginLiteral)
  else if c = 'n' then ({ s with step := .stateN }, .scanBeginLiteral)
  else if '1'.toNat ≤ c.toNat ∧ c.toNat ≤ '9'.toNat then
    ({ s with step := .state1 }, .scanBeginLiteral)
  else s.error c "looking for beginning of value"

/-- Go's `stateBeginString`. -/
def stateBeginString (s : Scanner) (c : Char) : Scanner × Op :=
  if isSpace c then (s, .scanSkipSpace)
  else if c = '"' then ({ s with step := .stateInString }, .scanBeginLiteral)
  else s.error c "looking for beginning of object key string"

/-- Go's `state0`, shared by the states that may end a number. -/
def state0 (s : Scanner) (c : Char) : Scanner × Op :=
  if c = '.' then ({ s with step := .stateDot }, .scanContinue)
  else if c = 'e' ∨ c = 'E' then ({ s with step := .stateE }, .scanContinue)
  else stateEndValue s c

/-- Go's `stateESign`. -/
def stateESign (s : Scanner) (c : Char) : Scanner × Op :=
  if isDigit c then ({ s with step := .stateE0 }, .scanContinue)
  else s.error c "in exponent of numeric literal"

/-- One byte of a keyword: `want` moves the scanner to `next`. -/
def literalByte (s : Scanner) (c want : Char) (next : Step) (context : String) : Scanner × Op :=
  if c = want then ({ s with step := next }, .scanContinue) else s.error c context

/-- One hexadecimal digit of a `\u` escape. -/
def hexByte (s : Scanner) (c : Char) (next : Step) : Scanner × Op :=
  if isHex c then ({ s with step := next }, .scanContinue)
  else s.error c "in \\u hexadecimal character escape"

/-- Go's `s.step(s, c)`: feed one byte to the scanner. -/
def feed (s : Scanner) (c : Char) : Scanner × Op :=
  match s.step with
  | .stateBeginValueOrEmpty =>
    if isSpace c then (s, .scanSkipSpace)
    else if c = ']' then stateEndValue s c
    else stateBeginValue s c
  | .stateBeginValue => stateBeginValue s c
  | .stateBeginStringOrEmpty =>
    if isSpace c then (s, .scanSkipSpace)
    else if c = '}' then
      stateEndValue { s with parseState := .parseObjectValue :: s.parseState.tail } c
    else stateBeginString s c
  | .stateBeginString => stateBeginString s c
  | .stateEndValue => stateEndValue s c
  | .stateEndTop => stateEndTop s c
  | .stateInString =>
    if c = '"' then ({ s with step := .stateEndValue }, .scanContinue)
    else if c = '\\' then ({ s with step := .stateInStringEsc }, .scanContinue)
    else if c.toNat < 0x20 then s.error c "in string literal"
    else (s, .scanContinue)
  | .stateInStringEsc =>
    if c = 'b' ∨ c = 'f' ∨ c = 'n' ∨ c = 'r' ∨ c = 't' ∨ c = '\\' ∨ c = '/' ∨ c = '"' then
      ({ s with step := .stateInString }, .scanContinue)
    else if c = 'u' then ({ s with step := .stateInStringEscU }, .scanContinue)
    else s.error c "in string escape code"
  | .stateInStringEscU => hexByte s c .stateInStringEscU1
  | .stateInStringEscU1 => hexByte s c .stateInStringEscU12
  | .stateInStringEscU12 => hexByte s c .stateInStringEscU123
  | .stateInStringEscU123 => hexByte s c .stateInString
  | .stateNeg =>
    if c = '0' then ({ s with step := .state0 }, .scanContinue)
    else if '1'.toNat ≤ c.toNat ∧ c.toNat ≤ '9'.toNat then
      ({ s with step := .state1 }, .scanContinue)
    else s.error c "in numeric literal"
  | .state1 =>
    if isDigit c then ({ s with step := .state1 }, .scanContinue) else state0 s c
  | .state0 => state0 s c
  | .stateDot =>
    if isDigit c then ({ s with step := .stateDot0 }, .scanContinue)
    else s.error c "after decimal point in numeric literal"
  | .stateDot0 =>
    if isDigit c then (s, .scanContinue)
    else if c = 'e' ∨ c = 'E' then ({ s with step := .stateE }, .scanContinue)
    else stateEndValue s c
  | .stateE =>
    if c = '+' ∨ c = '-' then ({ s with step := .stateESign }, .scanContinue)
    else stateESign s c
  | .stateESign => stateESign s c
  | .stateE0 =>
    if isDigit c then (s, .scanContinue) else stateEndValue s c
  | .stateT => literalByte s c 'r' .stateTr "in literal true (expecting 'r')"
  | .stateTr => literalByte s c 'u' .stateTru "in literal true (expecting 'u')"
  | .stateTru => literalByte s c 'e' .stateEndValue "in literal true (expecting 'e')"
  | .stateF => literalByte s c 'a' .stateFa "in literal false (expecting 'a')"
  | .stateFa => literalByte s c 'l' .stateFal "in literal false (expecting 'l')"
  | .stateFal => literalByte s c 's' .stateFals "in literal false (expecting 's')"
  | .stateFals => literalByte s c 'e' .stateEndValue "in literal false (expecting 'e')"
  | .stateN => literalByte s c 'u' .stateNu "in literal null (expecting 'u')"
  | .stateNu => literalByte s c 'l' .stateNul "in literal null (expecting 'l')"
  | .stateNul => literalByte s c 'l' .stateEndValue "in literal null (expecting 'l')"
  | .stateError => (s, .scanError)

end Scanner

/-! ## `encoding/json`: `Decoder.Decode` into a `User` (`stream.go`, `decode.go`) -/

/-- Go's `Decoder.readValue` on a reader that yields `input` and then end-of-file:
the number of bytes that make up the first JSON value (`scanp` counts the bytes
consumed so far), or the error `Decode` returns.  Bytes after the value are left
unread. -/
def readValue (input : List Char) : Scanner → List Char → Nat → Except String Nat
  | s, [], scanp =>
    if (s.feed ' ').2 = .scanEnd then .ok scanp
    else if input.any (fun c => !Scanner.isSpace c) then .error "unexpected EOF"
    else .error "EOF"
  | s, c :: rest, scanp =>
    match s.feed c with
    | (_, .scanEnd) => .ok scanp
    | (s1, .scanError) => .error (s1.err.getD "")
    | (s1, .scanEndObject) =>
      if (Scanner.stateEndValue s1 ' ').2 = .scanEnd then .ok (scanp + 1)
      else readValue input (Scanner.stateEndValue s1 ' ').1 rest (scanp + 1)
    | (s1, .scanEndArray) =>
      if (Scanner.stateEndValue s1 ' ').2 = .scanEnd then .ok (scanp + 1)
      else readValue input (Scanner.stateEndValue s1 ' ').1 rest (scanp + 1)
    | (s1, _) => readValue input s1 rest (scanp + 1)

/-- The scanner's result code for each byte of a value. -/
def scanValue : Scanner → List Char → List (Op × Char)
  | _, [] => []
  | s, c :: rest => ((s.feed c).2, c) :: scanValue (s.feed c).1 rest

/-- What `decodeState` sees of a value: structural bytes by their result code,
and literals (strings, numbers, `true`, `false`, `null`) as their bytes. -/
inductive Token where
  | punct (op : Op)
  | literal (item : List Char)
deriving DecidableEq, Repr

/-- Closes the literal being read, if any (`cur` holds its bytes, last first). -/
def flushLiteral (cur : Option (List Char)) : List Token :=
  match cur with
  | none => []
  | some item => [.literal item.reverse]

/-- Groups scanned bytes into tokens: a literal runs from its `scanBeginLiteral`
byte through the following `scanContinue` bytes; spaces separate and are dropped. -/
def tokens : List (Op × Char) → Option (List Char) → List Token
  | [], cur => flushLiteral cur
  | (op, c) :: rest, cur =>
    match op with
    | .scanContinue => tokens rest (cur.map (fun item => c :: item))
    | .scanBeginLiteral => flushLiteral cur ++ tokens rest (some [c])
    | .scanSkipSpace => flushLiteral cur ++ tokens rest none
    | _ => flushLiteral cur ++ .punct op :: tokens rest none

/-- The value of a hexadecimal digit. -/
def hexVal (c : Char) : Nat :=
  if Scanner.isDigit c then c.toNat - '0'.toNat
  else if 'a'.toNat ≤ c.toNat ∧ c.toNat ≤ 'f'.toNat then c.toNat - 'a'.toNat + 10
  else c.toNat - 'A'.toNat + 10

/-- Go's `getu4` on four hexadecimal digits. -/
def getu4 (a b c d : Char) : Nat :=
  ((hexVal a * 16 + hexVal b) * 16 + hexVal c) * 16 + hexVal d

/-- The replacement character U+FFFD. -/
def replacementChar : Char := Char.ofNat 0xFFFD

/-- The character a one-letter escape stands for. -/
def unescape (e : Char) : Char :=
  if e = 'b' then '\x08'
  else if e = 'f' then '\x0c'
  else if e = 'n' then '\n'
  else if e = 'r' then '\r'
  else if e = 't' then '\t'
  else e

/-- The low surrogate escape, if `s` starts with one. -/
def lowSurrogate (s : List Char) : Option Nat :=
  match s with
  | bs :: u :: a :: b :: c :: d :: _ =>
    if bs = '\\' ∧ u = 'u' ∧ 0xDC00 ≤ getu4 a b c d ∧ getu4 a b c d < 0xE000 then
      some (getu4 a b c d)
    else none
  | _ => none

/-- Go's `unquote` on the inside of a valid string literal.  `skip` counts bytes
already consumed as the second half of a surrogate pair. -/
def unquoteChars : List Char → Nat → List Char
  | [], _ => []
  | _ :: rest, skip + 1 => unquoteChars rest skip
  | c :: rest, 0 =>
    if c = '\\' then
      match rest with
      | e :: rest1 =>
        if e = 'u' then
          match rest1 with
          | a :: b :: c1 :: d :: rest2 =>
            let rr := getu4 a b c1 d
            if 0xD800 ≤ rr ∧ rr < 0xE000 then
              match lowSurrogate rest2 with
              | some rr1 =>
                if rr < 0xDC00 then
                  Char.ofNat (((rr - 0xD800) * 0x400 + (rr1 - 0xDC00)) + 0x10000)
                    :: unquoteChars rest 11
                else replacementChar :: unquoteChars rest 5
              | none => replacementChar :: unquoteChars rest 5
            else Char.ofNat rr :: unquoteChars rest 5
          | _ => unquoteChars rest 0
        else unescape e :: unquoteChars rest 1
      | [] => []
    else c :: unquoteChars rest 0

/-- Go's `unquote`: the string a valid string literal (quotes included) denotes. -/
def unquote (item : List Char) : String :=
  String.mk (unquoteChars (item.tail.dropLast) 0)

/-- The two fields of `User`, by wire name. -/
inductive Field where
  | uuid | name
deriving DecidableEq, Repr

/-- The wire name of a field. -/
def Field.wire : Field → String
  | .uuid => "uuid"
  | .name => "name"

/-- Go's `foldName`: ASCII letters in upper case.  No character outside ASCII folds
to a letter of `UUID` or `NAME`, so the others are left as they are. -/
def foldName (key : String) : String :=
  String.mk (key.toList.map (fun c =>
    if 'a'.toNat ≤ c.toNat ∧ c.toNat ≤ 'z'.toNat then Char.ofNat (c.toNat - 32) else c))

/-- The field an object key selects: the exact wire name first, then the folded one. -/
def lookupField (key : String) : Option Field :=
  if key = "uuid" then some .uuid
  else if key = "name" then some .name
  else if foldName key = "UUID" then some .uuid
  else if foldName key = "NAME" then some .name
  else none

/-- The `decodeState` while filling a `User`: the struct and the first error saved. -/
structure DecodeState where
  u : User
  savedError : Option String
deriving DecidableEq, Repr

/-- Go's `d.saveError` of an `UnmarshalTypeError` for a `string` field. -/
def DecodeState.saveTypeError (d : DecodeState) (value : String) (f : Field) : DecodeState :=
  match d.savedError with
  | some _ => d
  | none =>
    { d with savedError := some ("json: cannot unmarshal " ++ value
        ++ " into Go struct field User." ++ f.wire ++ " of type string") }

/-- Go's `d.literalStore(item, v, false)` for a `string` field `v`. -/
def DecodeState.literalStore (d : DecodeState) (item : List Char) (f : Field) : DecodeState :=
  match item with
  | [] => d
  | c :: _ =>
    if c = 'n' then d
    else if c = 't' ∨ c = 'f' then d.saveTypeError "bool" f
    else if c = '"' then
      match f with
      | .uuid => { d with u := { d.u with UUID := unquote item } }
      | .name => { d with u := { d.u with Name := unquote item } }
    else d.saveTypeError "number" f

/-- Go's `d.object(v)` for `v` the `User` struct, from just after the opening brace.
`nest` counts the containers open inside the value being skipped, `cur` is the
field the last key selected, `expectKey` tells a key from a value. -/
def objectWalk : List Token → Nat → Option Field → Bool → DecodeState → DecodeState
  | [], _, _, _, d => d
  | t :: rest, nest + 1, cur, expectKey, d =>
    match t with
    | .punct .scanBeginObject => objectWalk rest (nest + 2) cur expectKey d
    | .punct .scanBeginArray => objectWalk rest (nest + 2) cur expectKey d
    | .punct .scanEndObject => objectWalk rest nest cur expectKey d
    | .punct .scanEndArray => objectWalk rest nest cur expectKey d
    | _ => objectWalk rest (nest + 1) cur expectKey d
  | t :: rest, 0, cur, expectKey, d =>
    match t with
    | .literal item =>
      if expectKey then objectWalk rest 0 (lookupField (unquote item)) false d
      else
        match cur with
        | some f => objectWalk rest 0 cur false (d.literalStore item f)
        | none => objectWalk rest 0 cur false d
    | .punct .scanObjectKey => objectWalk rest 0 cur false d
    | .punct .scanObjectValue => objectWalk rest 0 none true d
    | .punct .scanBeginObject =>
      match cur with
      | some f => objectWalk rest 1 cur false (d.saveTypeError "object" f)
      | none => objectWalk rest 1 cur false d
    | .punct .scanBeginArray =>
      match cur with
      | some f => objectWalk rest 1 cur false (d.saveTypeError "array" f)
      | none => objectWalk rest 1 cur false d
    | _ => d

/-- Go's `d.unmarshal(&u)` on the bytes of one valid JSON value, `u` being the zero `User`. -/
def unmarshal (value : List Char) : Except String User :=
  match tokens (scanValue Scanner.reset value) none with
  | .punct .scanBeginObject :: rest =>
    let d := objectWalk rest 0 none true { u := { UUID := "", Name := "" }, savedError := none }
    match d.savedError with
    | some err => .error err
    | none => .ok d.u
  | .punct .scanBeginArray :: _ =>
    .error "json: cannot unmarshal array into Go value of type main.User"
  | .literal (c :: _) :: _ =>
    if c = 'n' then .ok { UUID := "", Name := "" }
    else if c = 't' ∨ c = 'f' then
      .error "json: cannot unmarshal bool into Go value of type main.User"
    else if c = '"' then
      .error "json: cannot unmarshal string into Go value of type main.User"
    else .error "json: cannot unmarshal number into Go value of type main.User"
  | _ => .ok { UUID := "", Name := "" }

/-- Go's `json.NewDecoder(r.Body).Decode(&u)` for a fresh `var u User`. -/
def jsonDecode (body : String) : Except String User :=
  match readValue body.toList Scanner.reset body.toList 0 with
  | .error err => .error err
  | .ok n => unmarshal (body.toList.take n)

/-! ## `database/sql` over MySQL: the `users` table

The table has the schema of `createTableQuery`: `uuid VARCHAR(36) PRIMARY KEY`,
`name VARCHAR(100) NOT NULL`.  Keys are compared as strings, a value wider than
its column is refused (strict SQL mode, the server default), and a new row goes
after the rows already there. -/

/-- The statements the program runs with `Exec`. -/
inductive Command where
  /-- The statement `CREATE TABLE IF NOT EXISTS users (...)`. -/
  | createTable
  /-- The statement `INSERT INTO users (uuid, name) VALUES ... ON DUPLICATE KEY
  UPDATE uuid=uuid`, with the rows of its `VALUES` list. -/
  | insertOrKeep (rows : List User)
  /-- The statement `INSERT INTO users (uuid, name) VALUES (?, ?)`. -/
  | insert
deriving DecidableEq, Repr

/-- The statements the program runs with `Query`. -/
inductive Query where
  /-- The statement `SELECT uuid, name from users`. -/
  | selectUsers
deriving DecidableEq, Repr

/-- A call made on the connection. -/
inductive Call where
  | prepare (q : Command)
  | exec (q : Command) (args : List String)
  | query (q : Query)
deriving DecidableEq, Repr

/-- The store: the rows of `users` in the order a full scan returns them (`none`
while the table does not exist), and the calls made on the connection so far. -/
structure Store where
  users : Option (List User)
  journal : List Call
deriving DecidableEq, Repr

/-- What the connection reports on top of what the table's contents entail:
an error for `Prepare`, for `Exec`, for `Query`, for the `Scan` of the row
with a given index, and for the iteration (`Next` stops after `n` rows and
`Err` then reports the error). -/
structure Conn where
  prepareErr : Option String
  execErr : Option String
  queryErr : Option String
  scanErr : Nat → Option String
  nextErr : Option (Nat × String)

/-- A connection that reports nothing of its own. -/
def Conn.healthy : Conn :=
  { prepareErr := none, execErr := none, queryErr := none,
    scanErr := fun _ => none, nextErr := none }

def errNoSuchTable : String :=
  "Error 1146 (42S02): Table 'cluster_demo.users' doesn't exist"

def errTooLong (column : String) : String :=
  "Error 1406 (22001): Data too long for column '" ++ column ++ "' at row 1"

def errDuplicate (key : String) : String :=
  "Error 1062 (23000): Duplicate entry '" ++ key ++ "' for key 'users.PRIMARY'"

/-- The column widths of the table. -/
def checkWidths (u : User) : Except String Unit :=
  if u.UUID.length > 36 then .error (errTooLong "uuid")
  else if u.Name.length > 100 then .error (errTooLong "name")
  else .ok ()

/-- Whether `uuid` is the primary key of a row. -/
def hasKey (t : List User) (uuid : String) : Bool :=
  t.any (fun row => row.UUID == uuid)

/-- A plain `INSERT` of one row. -/
def insertRow (t : List User) (u : User) : Except String (List User) :=
  match checkWidths u with
  | .error err => .error err
  | .ok _ => if hasKey t u.UUID then .error (errDuplicate u.UUID) else .ok (t ++ [u])

/-- The statement `INSERT ... ON DUPLICATE KEY UPDATE uuid=uuid`, row by row:
a row whose key is taken leaves the stored row as it is. -/
def insertOrKeep (t : List User) : List User → Except String (List User)
  | [] => .ok t
  | u :: rest =>
    match checkWidths u with
    | .error err => .error err
    | .ok _ => if hasKey t u.UUID then insertOrKeep t rest else insertOrKeep (t ++ [u]) rest

/-- The effect of a command on the table. -/
def runCommand (users : Option (List User)) (q : Command) (args : List String) :
    Except String (Option (List User)) :=
  match q with
  | .createTable => .ok (some (users.getD []))
  | .insertOrKeep rows =>
    match users with
    | none => .error errNoSuchTable
    | some t => (insertOrKeep t rows).map some
  | .insert =>
    match users, args with
    | none, _ => .error errNoSuchTable
    | some t, [uuid, name] => (insertRow t { UUID := uuid, Name := name }).map some
    | some _, _ => .error "sql: wrong number of arguments"

/-- A prepared statement. -/
structure Stmt where
  q : Command
deriving DecidableEq, Repr

/-- What `rows.Next`, `rows.Scan` and `rows.Err` will yield: the outcome of the
scan of each row delivered, and the error reported once `Next` has returned false. -/
structure Rows where
  cells : List (Except String User)
  err : Option String

namespace Conn

/-- What a command does to the table on this connection: the connection's own
error if it has one, else the effect of the command. -/
def execute (c : Conn) (users : Option (List User)) (q : Command) (args : List String) :
    Except String (Option (List User)) :=
  match c.execErr with
  | some err => .error err
  | none => runCommand users q args

/-- Go's `db.Exec(q)`. -/
def Exec (c : Conn) (s : Store) (q : Command) : Store × Except String Unit :=
  match c.execute s.users q [] with
  | .error err => ({ s with journal := s.journal ++ [.exec q []] }, .error err)
  | .ok users => ({ users := users, journal := s.journal ++ [.exec q []] }, .ok ())

/-- Whether the server must find the table to prepare the command. -/
def needsTable : Command → Bool
  | .createTable => false
  | .insertOrKeep _ => true
  | .insert => true

/-- What `Prepare` answers: the server resolves the table when it prepares. -/
def prepare (c : Conn) (users : Option (List User)) (q : Command) : Except String Stmt :=
  match c.prepareErr with
  | some err => .error err
  | none => if users.isNone && needsTable q then .error errNoSuchTable else .ok { q := q }

/-- Go's `db.PrepareContext(ctx, q)`. -/
def PrepareContext (c : Conn) (s : Store) (q : Command) : Store × Except String Stmt :=
  ({ s with journal := s.journal ++ [.prepare q] }, c.prepare s.users q)

/-- Go's `stmt.ExecContext(ctx, args...)`. -/
def ExecContext (c : Conn) (s : Store) (stmt : Stmt) (args : List String) :
    Store × Except String Unit :=
  match c.execute s.users stmt.q args with
  | .error err => ({ s with journal := s.journal ++ [.exec stmt.q args] }, .error err)
  | .ok users => ({ users := users, journal := s.journal ++ [.exec stmt.q args] }, .ok ())

/-- The result set of a full scan of `t` as this connection delivers it. -/
def rowsOf (c : Conn) (t : List User) : Rows :=
  let delivered := match c.nextErr with
    | some (n, _) => t.take n
    | none => t
  { cells := delivered.enum.map (fun p =>
      match c.scanErr p.1 with
      | some err => .error err
      | none => .ok p.2),
    err := c.nextErr.map (fun p => p.2) }

/-- What the `SELECT` answers. -/
def select (c : Conn) (users : Option (List User)) : Except String Rows :=
  match c.queryErr with
  | some err => .error err
  | none =>
    match users with
    | none => .error errNoSuchTable
    | some t => .ok (c.rowsOf t)

/-- Go's `db.QueryContext(ctx, q)`; a query leaves the table as it is. -/
def QueryContext (c : Conn) (s : Store) (q : Query) : Store × Except String Rows :=
  match q with
  | .selectUsers => ({ s with journal := s.journal ++ [.query q] }, c.select s.users)

end Conn

/-! ## The program (`main.go`) -/

/-- Lines 56-60. -/
def createTableQuery : Command := .createTable

/-- The three seed rows of lines 70-72. -/
def seedUsers : List User :=
  [ { UUID := "123e4567-e89b-12d3-a456-426614174000", Name := "Alice" },
    { UUID := "123e4567-e89b-12d3-a456-426614174001", Name := "Bob" },
    { UUID := "123e4567-e89b-12d3-a456-426614174002", Name := "Charlie" } ]

/-- Lines 67-73. -/
def insertInitialUsersQuery : Command := .insertOrKeep seedUsers

/-- Line 109. -/
def insertUserQuery : Command := .insert

/-- Line 110. -/
def getUsersQuery : Query := .selectUsers

/-- Lines 55-77 of `main`: create the table, then insert the seed rows.  An
error is fatal (`log.Fatalf`): the message is returned and nothing is served. -/
def setupUsers (db : Conn) (s : Store) : Store × Except String Unit :=
  match db.Exec s createTableQuery with
  | (s1, .error err) => (s1, .error ("creating table: " ++ err))
  | (s1, .ok _) =>
    match db.Exec s1 insertInitialUsersQuery with
    | (s2, .error err) => (s2, .error ("inserting initial users: " ++ err))
    | (s2, .ok _) => (s2, .ok ())

/-- An `http.Handler` over a state `σ`: `ServeHTTP(w, r)`. -/
abbrev Handler (σ : Type) := σ → ResponseWriter → Request → σ × ResponseWriter

/-- The handler of `/users`; `ctx` is `context.Background()`, which is never
cancelled, so only the connection is kept. -/
structure userHandler where
  db : Conn

namespace userHandler

/-- Lines 113-135. -/
def createUser (uh : userHandler) : Handler Store := fun s w r =>
  match jsonDecode r.Body with
  | .error err => (s, httpError w err StatusBadRequest)
  | .ok u =>
    match uh.db.PrepareContext s insertUserQuery with
    | (s1, .error err) => (s1, httpError w err StatusBadRequest)
    | (s1, .ok stmt) =>
      match uh.db.ExecContext s1 stmt [u.UUID, u.Name] with
      | (s2, .error err) => (s2, httpError w err StatusBadRequest)
      | (s2, .ok _) => (s2, (w.WriteHeader StatusCreated).Write "user added")

/-- Lines 146-153: the loop over the rows. -/
def scanUsers : List (Except String User) → Slice User → Except String (Slice User)
  | [], users => .ok users
  | .error err :: _, _ => .error err
  | .ok u :: rest, users => scanUsers rest (users.append u)

/-- Lines 137-168. -/
def getUsers (uh : userHandler) : Handler Store := fun s w _ =>
  match uh.db.QueryContext s getUsersQuery with
  | (s1, .error err) => (s1, httpError w err StatusInternalServerError)
  | (s1, .ok rows) =>
    match scanUsers rows.cells .nil with
    | .error err => (s1, httpError w err StatusInternalServerError)
    | .ok users =>
      match rows.err with
      | some err => (s1, httpError w err StatusInternalServerError)
      | none =>
        match jsonMarshal users with
        | .error err => (s1, httpError w err StatusInternalServerError)
        | .ok res =>
          (s1, ((w.SetHeader "Content-Type" "application/json").WriteHeader StatusOK).Write res)

/-- Lines 96-106. -/
def ServeHTTP (uh : userHandler) : Handler Store := fun s w r =>
  if r.Method = "GET" then uh.getUsers s w r
  else if r.Method = "POST" then uh.createUser s w r
  else
    (s, httpError (w.SetHeader "Allow" "GET, POST") "Method Not Allowed" StatusMethodNotAllowed)

end userHandler

/-- Lines 171-185. -/
def corsMiddleware {σ : Type} (next : Handler σ) : Handler σ := fun s w r =>
  let w1 := w.SetHeader "Access-Control-Allow-Origin" "*"
  let w2 := w1.SetHeader "Access-Control-Allow-Methods" "GET, POST, OPTIONS"
  let w3 := w2.SetHeader "Access-Control-Allow-Headers" "Content-Type"
  if r.Method = "OPTIONS" then (s, w3.WriteHeader StatusOK)
  else next s w3 r

/-- The server running a handler on one request: a fresh writer goes in, the
response goes out. -/
def serve {σ : Type} (h : Handler σ) (s : σ) (r : Request) : σ × Response :=
  ((h s ResponseWriter.fresh r).1, finishRequest (h s ResponseWriter.fresh r).2)

/-! ## Vocabulary of the claims -/

/-- The headers the handlers of `/users` set or delete themselves. -/
def ownHeader (k : String) : Prop :=
  k = "Content-Length" ∨ k = "Content-Type" ∨ k = "X-Content-Type-Options" ∨ k = "Allow"

/-- The store reports `err` to `getUsers`: as the error of the query, as the
error of the scan of a delivered row, or as the error of the iteration. -/
def reports (uh : userHandler) (s : Store) (err : String) : Prop :=
  (uh.db.QueryContext s getUsersQuery).2 = .error err
    ∨ ∃ rows, (uh.db.QueryContext s getUsersQuery).2 = .ok rows
        ∧ (Except.error err ∈ rows.cells ∨ rows.err = some err)

/-- The store reports `err` to `createUser` for the user `u`: as the error of
`Prepare`, or, once the statement is prepared, as the error of `Exec`. -/
def insertFails (uh : userHandler) (s : Store) (u : User) (err : String) : Prop :=
  uh.db.prepare s.users insertUserQuery = .error err
    ∨ ((∃ stmt, uh.db.prepare s.users insertUserQuery = .ok stmt)
      ∧ uh.db.execute s.users insertUserQuery [u.UUID, u.Name] = .error err)

/-- A connection that reports no error of its own during a request. -/
def Conn.silent (c : Conn) : Prop :=
  c.prepareErr = none ∧ c.execErr = none ∧ c.queryErr = none ∧ c.nextErr = none
    ∧ ∀ i, c.scanErr i = none

/-- The keys of a table are pairwise distinct. -/
def distinctKeys (t : List User) : Prop :=
  (t.map User.UUID).Nodup

instance (t : List User) : Decidable (distinctKeys t) :=
  inferInstanceAs (Decidable (t.map User.UUID).Nodup)

/-- The keys of the top-level object, read off the tokens that follow its
opening brace the way `objectWalk` reads them. -/
def objectKeys : List Token → Nat → Bool → List String
  | [], _, _ => []
  | t :: rest, nest + 1, expectKey =>
    match t with
    | .punct .scanBeginObject => objectKeys rest (nest + 2) expectKey
    | .punct .scanBeginArray => objectKeys rest (nest + 2) expectKey
    | .punct .scanEndObject => objectKeys rest nest expectKey
    | .punct .scanEndArray => objectKeys rest nest expectKey
    | _ => objectKeys rest (nest + 1) expectKey
  | t :: rest, 0, expectKey =>
    match t with
    | .literal item =>
      if expectKey then unquote item :: objectKeys rest 0 false else objectKeys rest 0 false
    | .punct .scanObjectKey => objectKeys rest 0 false
    | .punct .scanObjectValue => objectKeys rest 0 true
    | .punct .scanBeginObject => objectKeys rest 1 false
    | .punct .scanBeginArray => objectKeys rest 1 false
    | _ => []

/-- The keys of the JSON object a body starts with; `none` when the body does
not start with a well-formed JSON object. -/
def bodyKeys (body : String) : Option (List String) :=
  match readValue body.toList Scanner.reset body.toList 0 with
  | .error _ => none
  | .ok n =>
    match tokens (scanValue Scanner.reset (body.toList.take n)) none with
    | .punct .scanBeginObject :: rest => some (objectKeys rest 0 true)
    | _ => none

/-- Whether the body is a well-formed JSON object none of whose keys selects the
field `name`. -/
def lacksName (body : String) : Bool :=
  match bodyKeys body with
  | none => false
  | some keys => keys.all (fun k => lookupField k != some .name)

/-- Splits the tokens that follow the opening bracket of a JSON array into the
tokens of its elements.  `depth` counts the containers open inside the element
being read, `cur` holds its tokens, last first. -/
def splitElems : List Token → Nat → List Token → List (List Token)
  | [], _, _ => []
  | t :: rest, depth + 1, cur =>
    match t with
    | .punct .scanBeginObject => splitElems rest (depth + 2) (t :: cur)
    | .punct .scanBeginArray => splitElems rest (depth + 2) (t :: cur)
    | .punct .scanEndObject => splitElems rest depth (t :: cur)
    | .punct .scanEndArray => splitElems rest depth (t :: cur)
    | _ => splitElems rest (depth + 1) (t :: cur)
  | t :: rest, 0, cur =>
    match t with
    | .punct .scanArrayValue => cur.reverse :: splitElems rest 0 []
    | .punct .scanEndArray => if cur = [] then [] else [cur.reverse]
    | .punct .scanBeginObject => splitElems rest 1 (t :: cur)
    | .punct .scanBeginArray => splitElems rest 1 (t :: cur)
    | _ => splitElems rest 0 (t :: cur)

/-- The `User` that the tokens of one JSON object decode to, by the rules of
`unmarshal`; `none` when the tokens are not an object, when its keys are not
exactly `uuid` and `name`, or when a field is wrongly typed. -/
def userOfTokens (toks : List Token) : Option User :=
  match toks with
  | .punct .scanBeginObject :: rest =>
    if objectKeys rest 0 true = ["uuid", "name"] then
      match (objectWalk rest 0 none true
          { u := { UUID := "", Name := "" }, savedError := none }).savedError with
      | some _ => none
      | none =>
        some (objectWalk rest 0 none true
          { u := { UUID := "", Name := "" }, savedError := none }).u
    else none
  | _ => none

/-- All the values of a list of options, if none is missing. -/
def allSome {α : Type} : List (Option α) → Option (List α)
  | [] => some []
  | none :: _ => none
  | some a :: rest =>
    match allSome rest with
    | none => none
    | some as => some (a :: as)

/-- Reads a response body as a JSON array of user objects, the way a client
does: the body must be one well-formed JSON value and nothing else, that value
must be an array, and each element must be an object that decodes into a
`User`.  The result lists the users in the order of the array. -/
def parseUserArray (body : String) : Option (List User) :=
  match readValue body.toList Scanner.reset body.toList 0 with
  | .error _ => none
  | .ok n =>
    if n = body.toList.length then
      match tokens (scanValue Scanner.reset body.toList) none with
      | .punct .scanBeginArray :: rest => allSome ((splitElems rest 0 []).map userOfTokens)
      | _ => none
    else none

/-- The store of the examples with no row. -/
def emptyStore : Store := { users := some [], journal := [] }

/-- The request of the examples whose body is `{"uuid":"x"}`. -/
def xPost : Request := ⟨"POST", "\x7b\"uuid\":\"x\"\x7d"⟩

/-- The store of the scenario: the table holds one seed row. -/
def aliceStore : Store :=
  { users := some [⟨"123e4567-e89b-12d3-a456-426614174000", "Alice"⟩], journal := [] }

/-- The user of the scenario. -/
def dora : User := ⟨"11111111-1111-1111-1111-111111111111", "Dora"⟩

/-- The request of the scenario. -/
def doraPost : Request :=
  ⟨"POST", "\x7b\"uuid\":\"11111111-1111-1111-1111-111111111111\",\"name\":\"Dora\"\x7d"⟩

/-- A store whose table holds one row, under the uuid of the seed row `Bob`. -/
def zedStore : Store :=
  { users := some [⟨"123e4567-e89b-12d3-a456-426614174001", "Zed"⟩], journal := [] }

/-! ## Vocabulary of the proofs about the wire format -/

/-- A scanner in the middle of a value: no error, top level not ended. -/
def st (step : Step) (ps : List ParseState) : Scanner :=
  { step := step, endTop := false, parseState := ps, err := none }

/-- Reading `cs` takes the scanner from `s` to `s1` with the events `evs`, and
`readValue` reads on through it. -/
def Seg (s : Scanner) (cs : List Char) (evs : List (Op × Char)) (s1 : Scanner) : Prop :=
  (∀ rest, scanValue s (cs ++ rest) = evs ++ scanValue s1 rest)
    ∧ ∀ input rest n, readValue input s (cs ++ rest) n = readValue input s1 rest (n + cs.length)

/-- The result codes on which `readValue` just reads the next byte. -/
def Op.passes : Op → Bool
  | .scanEnd => false
  | .scanError => false
  | .scanEndObject => false
  | .scanEndArray => false
  | _ => true

/-- The result codes of the structural bytes: braces, brackets, colon, comma. -/
def Op.structural : Op → Bool
  | .scanBeginObject => true
  | .scanObjectKey => true
  | .scanObjectValue => true
  | .scanEndObject => true
  | .scanBeginArray => true
  | .scanArrayValue => true
  | .scanEndArray => true
  | _ => false

/-- What the decoder needs to read back what the encoder wrote for `c`: the
bytes are the character itself, a two-byte escape, or a `\u` escape of four
hexadecimal digits. -/
def EscapeShape (c : Char) (bytes : List Char) : Prop :=
  (bytes = [c] ∧ c ≠ '"' ∧ c ≠ '\\' ∧ 0x20 ≤ c.toNat)
    ∨ (∃ e, bytes = ['\\', e]
        ∧ (e = 'b' ∨ e = 'f' ∨ e = 'n' ∨ e = 'r' ∨ e = 't' ∨ e = '\\' ∨ e = '"')
        ∧ unescape e = c)
    ∨ (∃ h1 h2 h3 h4, bytes = ['\\', 'u', h1, h2, h3, h4]
        ∧ Scanner.isHex h1 = true ∧ Scanner.isHex h2 = true ∧ Scanner.isHex h3 = true
        ∧ Scanner.isHex h4 = true ∧ getu4 h1 h2 h3 h4 = c.toNat ∧ c.toNat < 0xD800)

/-- The bytes of a string literal: the escaped characters between quotes. -/
def quoted (s : String) : List Char :=
  '"' :: (s.toList.flatMap escapeChar ++ ['"'])

/-- The events of a literal: its first byte begins it, the others continue it. -/
def litEvents (item : List Char) : List (Op × Char) :=
  match item with
  | [] => []
  | c :: cs => (.scanBeginLiteral, c) :: cs.map (fun b => (.scanContinue, b))

/-- The bytes `json.Marshal` writes for one user. -/
def userChars (u : User) : List Char :=
  '\x7b' :: quoted "uuid" ++ ':' :: quoted u.UUID ++ ',' :: quoted "name" ++ ':'
    :: quoted u.Name ++ ['\x7d']

/-- The events of the scanner on the bytes of one user. -/
def userEvents (u : User) : List (Op × Char) :=
  (.scanBeginObject, '\x7b') :: litEvents (quoted "uuid") ++ (.scanObjectKey, ':')
    :: litEvents (quoted u.UUID) ++ (.scanObjectValue, ',') :: litEvents (quoted "name")
    ++ (.scanObjectKey, ':') :: litEvents (quoted u.Name) ++ [(.scanEndObject, '\x7d')]

/-- The tokens of one user. -/
def userTokens (u : User) : List Token :=
  [.punct .scanBeginObject, .literal (quoted "uuid"), .punct .scanObjectKey,
    .literal (quoted u.UUID), .punct .scanObjectValue, .literal (quoted "name"),
    .punct .scanObjectKey, .literal (quoted u.Name), .punct .scanEndObject]

/-- The bytes of a JSON array of users that is not empty. -/
def arrayChars (u : User) (rest : List User) : List Char :=
  '[' :: userChars u ++ (rest.flatMap (fun v => ',' :: userChars v) ++ [']'])

/-- The events of the scanner on a JSON array of users that is not empty. -/
def arrayEvents (u : User) (rest : List User) : List (Op × Char) :=
  (.scanBeginArray, '[') :: userEvents u
    ++ (rest.flatMap (fun v => (.scanArrayValue, ',') :: userEvents v) ++ [(.scanEndArray, ']')])

/-! ## Lemmas on the response writer -/

theorem Header.Get_Del_of_ne (h : Header) (key k : String) (hk : k ≠ key) :
    (h.Del key).Get k = h.Get k := by
  cases h with
  | mk entries =>
    simp only [Header.Del, Header.Get]
    induction entries with
    | nil => rfl
    | cons p rest ih =>
      obtain ⟨a, b⟩ := p
      by_cases ha : a = key
      · subst ha
        have hne : (k == a) = false := by simpa using hk
        simp [List.filter, List.lookup, hne, ih]
      · have hne : (a != key) = true := by simpa using ha
        simp only [List.filter, hne, List.lookup]
        cases hka : (k == a) with
        | true => rfl
        | false => simpa using ih

theorem Header.Get_Del_self (h : Header) (key : String) : (h.Del key).Get key = none := by
  cases h with
  | mk entries =>
    simp only [Header.Del, Header.Get]
    induction entries with
    | nil => rfl
    | cons p rest ih =>
      obtain ⟨a, b⟩ := p
      by_cases ha : a = key
      · subst ha
        simpa [List.filter] using ih
      · have hne : (a != key) = true := by simpa using ha
        have hka : (key == a) = false := by
          simpa using (fun h : key = a => ha h.symm)
        simpa [List.filter, hne, List.lookup, hka] using ih

theorem lookup_append_of_none {α β : Type} [BEq α] (l₁ l₂ : List (α × β)) (k : α)
    (h : l₁.lookup k = none) : (l₁ ++ l₂).lookup k = l₂.lookup k := by
  induction l₁ with
  | nil => rfl
  | cons p rest ih =>
    obtain ⟨a, b⟩ := p
    cases hka : (k == a) with
    | true => simp [List.lookup, hka] at h
    | false =>
      simp only [List.lookup, hka] at h
      simpa [List.lookup, hka] using ih h

theorem lookup_append_of_some {α β : Type} [BEq α] (l₁ l₂ : List (α × β)) (k : α) (v : β)
    (h : l₁.lookup k = some v) : (l₁ ++ l₂).lookup k = some v := by
  induction l₁ with
  | nil => simp [List.lookup] at h
  | cons p rest ih =>
    obtain ⟨a, b⟩ := p
    cases hka : (k == a) with
    | true => simpa [List.lookup, hka] using h
    | false =>
      simp only [List.lookup, hka] at h
      simpa [List.lookup, hka] using ih h

theorem Header.Get_Set_self (h : Header) (key value : String) :
    (h.Set key value).Get key = some value := by
  have h0 := Header.Get_Del_self h key
  simp only [Header.Get] at h0
  simp only [Header.Set, Header.Get]
  rw [lookup_append_of_none _ _ _ h0]
  simp [List.lookup]

theorem Header.Get_Set_of_ne (h : Header) (key value k : String) (hk : k ≠ key) :
    (h.Set key value).Get k = h.Get k := by
  have h0 := Header.Get_Del_of_ne h key k hk
  simp only [Header.Get] at h0
  simp only [Header.Set, Header.Get]
  cases hl : List.lookup k h.entries with
  | none =>
    rw [hl] at h0
    rw [lookup_append_of_none _ _ _ h0]
    have hne : (k == key) = false := by simpa using hk
    simp [List.lookup, hne]
  | some v =>
    rw [hl] at h0
    exact lookup_append_of_some _ _ _ _ h0

/-- What `http.Error` leaves behind on a writer whose status line is unwritten. -/
theorem httpError_spec (w : ResponseWriter) (error : String) (code : Nat)
    (hw : w.wroteHeader = false) :
    (httpError w error code).wroteHeader = true
      ∧ (httpError w error code).status = code
      ∧ (httpError w error code).body = w.body ++ (error ++ "\n")
      ∧ (httpError w error code).sent =
          ((w.header.Del "Content-Length").Set "Content-Type" "text/plain; charset=utf-8").Set
            "X-Content-Type-Options" "nosniff" := by
  simp [httpError, ResponseWriter.Write, ResponseWriter.WriteHeader, ResponseWriter.SetHeader,
    ResponseWriter.DelHeader, hw]

/-- The writer `http.Error` leaves behind sends every header it does not itself
set or delete as it found it. -/
theorem httpError_sent_Get (w : ResponseWriter) (error : String) (code : Nat)
    (hw : w.wroteHeader = false) (k : String) (h1 : k ≠ "Content-Length")
    (h2 : k ≠ "Content-Type") (h3 : k ≠ "X-Content-Type-Options") :
    (httpError w error code).sent.Get k = w.header.Get k := by
  rw [(httpError_spec w error code hw).2.2.2, Header.Get_Set_of_ne _ _ _ _ h3,
    Header.Get_Set_of_ne _ _ _ _ h2, Header.Get_Del_of_ne _ _ _ h1]

/-- The response `http.Error` produces on a fresh writer. -/
theorem finishRequest_httpError (error : String) (code : Nat) :
    finishRequest (httpError ResponseWriter.fresh error code) =
      { status := code,
        header := ⟨[("Content-Type", "text/plain; charset=utf-8"),
                    ("X-Content-Type-Options", "nosniff")]⟩,
        body := error ++ "\n" } := by
  obtain ⟨h1, h2, h3, h4⟩ := httpError_spec ResponseWriter.fresh error code rfl
  simp only [finishRequest, h1, h2, h3, h4, if_true]
  simp [ResponseWriter.fresh]
  rfl

/-- The response of `getUsers` when nothing goes wrong, `res` being the JSON text. -/
theorem finishRequest_ok (res : String) :
    finishRequest (((ResponseWriter.fresh.SetHeader "Content-Type" "application/json").WriteHeader
        StatusOK).Write res) =
      { status := 200, header := ⟨[("Content-Type", "application/json")]⟩, body := res } := by
  simp [finishRequest, ResponseWriter.Write, ResponseWriter.WriteHeader, ResponseWriter.SetHeader,
    ResponseWriter.fresh, StatusOK]
  rfl

/-! ## Frame lemmas: which headers a handler leaves alone -/

theorem createUser_frame (uh : userHandler) (s : Store) (w : ResponseWriter) (r : Request)
    (hw : w.wroteHeader = false) (k : String) (hk : ¬ ownHeader k) :
    (uh.createUser s w r).2.wroteHeader = true
      ∧ (uh.createUser s w r).2.sent.Get k = w.header.Get k := by
  simp only [ownHeader, not_or] at hk
  obtain ⟨h1, h2, h3, _⟩ := hk
  have herr : ∀ e code, (httpError w e code).wroteHeader = true
      ∧ (httpError w e code).sent.Get k = w.header.Get k :=
    fun e code => ⟨(httpError_spec w e code hw).1, httpError_sent_Get w e code hw k h1 h2 h3⟩
  unfold userHandler.createUser
  split
  · exact herr _ _
  · split
    · exact herr _ _
    · split
      · exact herr _ _
      · simp [ResponseWriter.Write, ResponseWriter.WriteHeader, hw]

theorem getUsers_frame (uh : userHandler) (s : Store) (w : ResponseWriter) (r : Request)
    (hw : w.wroteHeader = false) (k : String) (hk : ¬ ownHeader k) :
    (uh.getUsers s w r).2.wroteHeader = true
      ∧ (uh.getUsers s w r).2.sent.Get k = w.header.Get k := by
  simp only [ownHeader, not_or] at hk
  obtain ⟨h1, h2, h3, _⟩ := hk
  have herr : ∀ e code, (httpError w e code).wroteHeader = true
      ∧ (httpError w e code).sent.Get k = w.header.Get k :=
    fun e code => ⟨(httpError_spec w e code hw).1, httpError_sent_Get w e code hw k h1 h2 h3⟩
  unfold userHandler.getUsers
  split
  · exact herr _ _
  · split
    · exact herr _ _
    · split
      · exact herr _ _
      · split
        · exact herr _ _
        · simp [ResponseWriter.Write, ResponseWriter.WriteHeader, ResponseWriter.SetHeader, hw,
            Header.Get_Set_of_ne _ _ _ _ h2]

theorem ServeHTTP_frame (uh : userHandler) (s : Store) (w : ResponseWriter) (r : Request)
    (hw : w.wroteHeader = false) (k : String) (hk : ¬ ownHeader k) :
    (uh.ServeHTTP s w r).2.wroteHeader = true
      ∧ (uh.ServeHTTP s w r).2.sent.Get k = w.header.Get k := by
  unfold userHandler.ServeHTTP
  split
  · exact getUsers_frame uh s w r hw k hk
  · split
    · exact createUser_frame uh s w r hw k hk
    · simp only [ownHeader, not_or] at hk
      obtain ⟨h1, h2, h3, h4⟩ := hk
      have hw1 : (w.SetHeader "Allow" "GET, POST").wroteHeader = false := by
        simpa [ResponseWriter.SetHeader] using hw
      refine ⟨(httpError_spec _ _ _ hw1).1, ?_⟩
      rw [httpError_sent_Get _ _ _ hw1 k h1 h2 h3]
      simp [ResponseWriter.SetHeader, Header.Get_Set_of_ne _ _ _ _ h4]

/-! ## Lemmas on `getUsers` -/

theorem foldl_append_of (us xs : List User) :
    us.foldl Slice.append (.of xs) = .of (xs ++ us) := by
  induction us generalizing xs with
  | nil => simp
  | cons u rest ih => simp [List.foldl, Slice.append, ih]

/-- The slice the loop builds from `us`: `nil` survives only when there is no row. -/
theorem foldl_append_nil (us : List User) :
    us.foldl Slice.append .nil = (if us = [] then Slice.nil else Slice.of us) := by
  cases us with
  | nil => rfl
  | cons u rest => simp [List.foldl, Slice.append, foldl_append_of]

theorem scanUsers_ok (us : List User) (acc : Slice User) :
    userHandler.scanUsers (us.map .ok) acc = .ok (us.foldl Slice.append acc) := by
  induction us generalizing acc with
  | nil => rfl
  | cons u rest ih => simp [userHandler.scanUsers, ih]

theorem scanUsers_error (cells : List (Except String User)) (acc : Slice User) (err : String)
    (h : userHandler.scanUsers cells acc = .error err) : Except.error err ∈ cells := by
  induction cells generalizing acc with
  | nil => simp [userHandler.scanUsers] at h
  | cons c rest ih =>
    cases c with
    | error e =>
      simp only [userHandler.scanUsers, Except.error.injEq] at h
      simp [h]
    | ok u =>
      simp only [userHandler.scanUsers] at h
      exact List.mem_cons_of_mem _ (ih _ h)

theorem scanUsers_ok_inv (cells : List (Except String User)) (acc users : Slice User)
    (h : userHandler.scanUsers cells acc = .ok users) :
    ∃ us : List User, cells = us.map .ok ∧ users = us.foldl Slice.append acc := by
  induction cells generalizing acc with
  | nil =>
    simp only [userHandler.scanUsers, Except.ok.injEq] at h
    exact ⟨[], rfl, h.symm⟩
  | cons c rest ih =>
    cases c with
    | error e => simp [userHandler.scanUsers] at h
    | ok u =>
      simp only [userHandler.scanUsers] at h
      obtain ⟨us, h1, h2⟩ := ih _ h
      exact ⟨u :: us, by simp [h1], by simpa using h2⟩

/-- When every delivered row scans and the iteration reports nothing, the rows
delivered are the rows of the table. -/
theorem rowsOf_all_ok (c : Conn) (t us : List User) (hc : (c.rowsOf t).cells = us.map .ok)
    (he : (c.rowsOf t).err = none) : us = t := by
  have hn : c.nextErr = none := by
    cases hx : c.nextErr with
    | none => rfl
    | some p => simp [Conn.rowsOf, hx] at he
  have aux : ∀ (l : List (Nat × User)) (vs : List User),
      l.map (fun p => match c.scanErr p.1 with
        | some err => (Except.error err : Except String User)
        | none => .ok p.2) = vs.map .ok → vs = l.map Prod.snd := by
    intro l
    induction l with
    | nil =>
      intro vs h
      cases vs with
      | nil => rfl
      | cons v vs => simp at h
    | cons p rest ih =>
      intro vs h
      cases vs with
      | nil => simp at h
      | cons v vs =>
        simp only [List.map_cons, List.cons.injEq] at h
        obtain ⟨h1, h2⟩ := h
        have hv : v = p.2 := by
          cases hs : c.scanErr p.1 with
          | none =>
            rw [hs] at h1
            simp only [Except.ok.injEq] at h1
            exact h1.symm
          | some e =>
            rw [hs] at h1
            cases h1
        simp [hv, ih vs h2]
  simp only [Conn.rowsOf, hn] at hc
  rw [aux _ _ hc, List.enum_map_snd]

theorem rowsOf_healthy (c : Conn) (t : List User) (hn : c.nextErr = none)
    (hs : ∀ i, i < t.length → c.scanErr i = none) :
    (c.rowsOf t).cells = t.map .ok ∧ (c.rowsOf t).err = none := by
  refine ⟨?_, by simp [Conn.rowsOf, hn]⟩
  simp only [Conn.rowsOf, hn]
  apply List.ext_getElem
  · simp
  · intro i h1 h2
    simp only [List.length_map, List.enum_length] at h1
    simp [hs i h1]

theorem QueryContext_users (c : Conn) (s : Store) (q : Query) :
    (c.QueryContext s q).1.users = s.users := by
  cases q
  rfl

/-- What `QueryContext` answers. -/
theorem QueryContext_result (c : Conn) (s : Store) :
    (c.QueryContext s getUsersQuery).2 = c.select s.users := rfl

/-- The response of `getUsers`, by cases on what the store answers. -/
theorem getUsers_response (uh : userHandler) (s : Store) (r : Request) :
    (serve uh.getUsers s r).2 =
      (match (uh.db.QueryContext s getUsersQuery).2 with
        | .error err => finishRequest (httpError ResponseWriter.fresh err 500)
        | .ok rows =>
          match userHandler.scanUsers rows.cells .nil with
          | .error err => finishRequest (httpError ResponseWriter.fresh err 500)
          | .ok users =>
            match rows.err with
            | some err => finishRequest (httpError ResponseWriter.fresh err 500)
            | none =>
              match jsonMarshal users with
              | .error err => finishRequest (httpError ResponseWriter.fresh err 500)
              | .ok res =>
                { status := 200, header := ⟨[("Content-Type", "application/json")]⟩,
                  body := res }) := by
  simp only [serve, userHandler.getUsers]
  rcases hq : uh.db.QueryContext s getUsersQuery with ⟨s1, res⟩
  cases res with
  | error err => rfl
  | ok rows =>
    simp only
    cases hs : userHandler.scanUsers rows.cells .nil with
    | error err => rfl
    | ok users =>
      simp only
      cases he : rows.err with
      | some err => rfl
      | none =>
        simp only
        cases hm : jsonMarshal users with
        | error err => rfl
        | ok res => simp only [StatusInternalServerError, finishRequest_ok]

theorem Conn.healthy_silent : Conn.healthy.silent :=
  ⟨rfl, rfl, rfl, rfl, fun _ => rfl⟩

/-- The response of `getUsers` on a table that has a row, when the connection
reports nothing: the JSON array of the rows, in order. -/
theorem getUsers_rows (uh : userHandler) (s : Store) (r : Request) (t : List User)
    (hc : uh.db.silent) (hs : s.users = some t) (hne : t ≠ []) :
    (serve uh.getUsers s r).2 =
      { status := 200, header := ⟨[("Content-Type", "application/json")]⟩,
        body := marshalArray (t.map marshalUser) } := by
  obtain ⟨_, _, hq, hn, hsc⟩ := hc
  obtain ⟨hcells, herr⟩ := rowsOf_healthy uh.db t hn (fun i _ => hsc i)
  rw [getUsers_response, QueryContext_result]
  simp only [Conn.select, hq, hs, hcells, herr, scanUsers_ok, foldl_append_nil, if_neg hne,
    jsonMarshal]

/-! ## Lemmas on `createUser` -/

/-- The outcome of `createUser` once the body has decoded, by cases on what the
store answers to `Prepare` and `Exec`. -/
theorem createUser_decoded (uh : userHandler) (s : Store) (r : Request) (u : User)
    (hd : jsonDecode r.Body = .ok u) :
    serve uh.createUser s r =
      (match uh.db.prepare s.users insertUserQuery with
        | .error err =>
          ({ s with journal := s.journal ++ [.prepare insertUserQuery] },
            finishRequest (httpError ResponseWriter.fresh err 400))
        | .ok stmt =>
          match uh.db.execute s.users stmt.q [u.UUID, u.Name] with
          | .error err =>
            ({ s with journal := s.journal ++ [.prepare insertUserQuery]
                ++ [.exec stmt.q [u.UUID, u.Name]] },
              finishRequest (httpError ResponseWriter.fresh err 400))
          | .ok users =>
            ({ users := users, journal := s.journal ++ [.prepare insertUserQuery]
                ++ [.exec stmt.q [u.UUID, u.Name]] },
              { status := 201, header := ⟨[]⟩, body := "user added" })) := by
  simp only [serve, userHandler.createUser, hd, Conn.PrepareContext]
  cases hp : uh.db.prepare s.users insertUserQuery with
  | error err => rfl
  | ok stmt =>
    simp only [Conn.ExecContext]
    cases he : uh.db.execute s.users stmt.q [u.UUID, u.Name] with
    | error err => rfl
    | ok users => rfl

/-- A statement that was prepared is the command that was asked for. -/
theorem prepare_ok (c : Conn) (users : Option (List User)) (q : Command) (stmt : Stmt)
    (h : c.prepare users q = .ok stmt) : stmt.q = q := by
  unfold Conn.prepare at h
  split at h
  · cases h
  · split at h
    · cases h
    · simp only [Except.ok.injEq] at h
      rw [← h]

theorem hasKey_iff (t : List User) (uuid : String) :
    hasKey t uuid = true ↔ ∃ row ∈ t, row.UUID = uuid := by
  simp [hasKey]

/-- An `INSERT` whose key is taken fails. -/
theorem execute_insert_duplicate (c : Conn) (t : List User) (u : User)
    (hk : ∃ row ∈ t, row.UUID = u.UUID) :
    ∃ err, c.execute (some t) .insert [u.UUID, u.Name] = .error err := by
  unfold Conn.execute
  cases c.execErr with
  | some err => exact ⟨err, rfl⟩
  | none =>
    simp only [runCommand, insertRow]
    cases checkWidths { UUID := u.UUID, Name := u.Name } with
    | error err => exact ⟨err, rfl⟩
    | ok _ =>
      simp only [(hasKey_iff t u.UUID).2 hk, if_true]
      exact ⟨_, rfl⟩

/-- An `INSERT` of a row that fits the columns and whose key is free appends the row. -/
theorem execute_insert_fresh (c : Conn) (t : List User) (u : User) (hc : c.execErr = none)
    (h1 : u.UUID.length ≤ 36) (h2 : u.Name.length ≤ 100) (hk : ∀ row ∈ t, row.UUID ≠ u.UUID) :
    c.execute (some t) .insert [u.UUID, u.Name] = .ok (some (t ++ [u])) := by
  have hno : hasKey t u.UUID = false := by
    cases hh : hasKey t u.UUID with
    | false => rfl
    | true =>
      obtain ⟨row, hr, he⟩ := (hasKey_iff t u.UUID).1 hh
      exact absurd he (hk row hr)
  have hw : checkWidths { UUID := u.UUID, Name := u.Name } = .ok () := by
    simp [checkWidths, Nat.not_lt.2 h1, Nat.not_lt.2 h2]
  simp only [Conn.execute, hc, runCommand, insertRow, hw, hno]
  rfl

/-- An `INSERT` that succeeds found the table, a key that was free and a row
that fits the columns, and appended the row. -/
theorem execute_insert_ok (c : Conn) (users res : Option (List User)) (u : User)
    (h : c.execute users .insert [u.UUID, u.Name] = .ok res) :
    ∃ t, users = some t ∧ (∀ row ∈ t, row.UUID ≠ u.UUID) ∧ u.UUID.length ≤ 36
      ∧ u.Name.length ≤ 100 ∧ res = some (t ++ [u]) := by
  unfold Conn.execute at h
  cases hc : c.execErr with
  | some e => rw [hc] at h; cases h
  | none =>
    rw [hc] at h
    cases users with
    | none => simp [runCommand] at h
    | some t =>
      simp only [runCommand, insertRow] at h
      cases hw : checkWidths { UUID := u.UUID, Name := u.Name } with
      | error e => rw [hw] at h; cases h
      | ok _ =>
        rw [hw] at h
        cases hk : hasKey t u.UUID with
        | true => simp [hk, Except.map] at h
        | false =>
          simp only [hk, Except.map, Bool.false_eq_true, if_false, Except.ok.injEq] at h
          have hfresh : ∀ row ∈ t, row.UUID ≠ u.UUID := by
            intro row hr he
            have := (hasKey_iff t u.UUID).2 ⟨row, hr, he⟩
            rw [hk] at this
            cases this
          have hlen : u.UUID.length ≤ 36 ∧ u.Name.length ≤ 100 := by
            unfold checkWidths at hw
            split at hw
            · cases hw
            · split at hw
              · cases hw
              · simp only at *
                omega
          exact ⟨t, rfl, hfresh, hlen.1, hlen.2, h.symm⟩

/-! ## Lemmas on the decoder -/

theorem saveTypeError_u (d : DecodeState) (value : String) (f : Field) :
    (d.saveTypeError value f).u = d.u := by
  unfold DecodeState.saveTypeError
  split <;> rfl

theorem literalStore_name (d : DecodeState) (item : List Char) (f : Field)
    (hf : f ≠ .name) : (d.literalStore item f).u.Name = d.u.Name := by
  unfold DecodeState.literalStore
  split
  · rfl
  · split
    · rfl
    · split
      · rw [saveTypeError_u]
      · split
        · cases f with
          | uuid => rfl
          | name => exact absurd rfl hf
        · rw [saveTypeError_u]

/-- A walk over an object none of whose keys selects `name` leaves `Name` as it was. -/
theorem objectWalk_name (toks : List Token) :
    ∀ (nest : Nat) (cur : Option Field) (expectKey : Bool) (d : DecodeState),
      cur ≠ some .name →
      (∀ k ∈ objectKeys toks nest expectKey, lookupField k ≠ some .name) →
      (objectWalk toks nest cur expectKey d).u.Name = d.u.Name := by
  induction toks with
  | nil =>
    intro nest cur expectKey d _ _
    simp [objectWalk]
  | cons t rest ih =>
    intro nest cur expectKey d hcur hkeys
    cases nest with
    | succ n =>
      cases t with
      | literal item =>
        simp only [objectWalk, objectKeys] at hkeys ⊢
        exact ih _ _ _ _ hcur hkeys
      | punct op =>
        cases op <;> simp only [objectWalk, objectKeys] at hkeys ⊢ <;>
          exact ih _ _ _ _ hcur hkeys
    | zero =>
      cases t with
      | literal item =>
        cases expectKey with
        | true =>
          simp only [objectWalk, objectKeys, if_true, List.mem_cons, forall_eq_or_imp]
            at hkeys ⊢
          exact ih _ _ _ _ hkeys.1 hkeys.2
        | false =>
          simp only [objectWalk, objectKeys, Bool.false_eq_true, if_false] at hkeys ⊢
          cases cur with
          | none => exact ih _ _ _ _ hcur hkeys
          | some f =>
            simp only
            rw [ih _ _ _ _ hcur hkeys]
            exact literalStore_name d item f (fun h => hcur (by rw [h]))
      | punct op =>
        cases op <;> simp only [objectWalk, objectKeys] at hkeys ⊢
        case scanObjectKey => exact ih _ _ _ _ hcur hkeys
        case scanObjectValue => exact ih _ _ _ _ (by simp) hkeys
        case scanBeginObject =>
          cases cur with
          | none => exact ih _ _ _ _ hcur hkeys
          | some f =>
            simp only
            rw [ih _ _ _ _ hcur hkeys, saveTypeError_u]
        case scanBeginArray =>
          cases cur with
          | none => exact ih _ _ _ _ hcur hkeys
          | some f =>
            simp only
            rw [ih _ _ _ _ hcur hkeys, saveTypeError_u]

/-- A body that decodes and lacks the field `name` decodes with an empty `Name`. -/
theorem jsonDecode_lacksName (body : String) (u : User) (hd : jsonDecode body = .ok u)
    (hl : lacksName body = true) : u.Name = "" := by
  have hl2 : ∃ keys, bodyKeys body = some keys ∧ ∀ k ∈ keys, lookupField k ≠ some .name := by
    unfold lacksName at hl
    cases hk : bodyKeys body with
    | none => simp [hk] at hl
    | some keys =>
      simp only [hk, List.all_eq_true, bne_iff_ne] at hl
      exact ⟨keys, rfl, hl⟩
  obtain ⟨keys, hk, hno⟩ := hl2
  unfold jsonDecode at hd
  unfold bodyKeys at hk
  cases hr : readValue body.toList Scanner.reset body.toList 0 with
  | error err => rw [hr] at hd; cases hd
  | ok n =>
    rw [hr] at hd hk
    simp only at hd hk
    unfold unmarshal at hd
    split at hk
    · next rest htok =>
      simp only [Option.some.injEq] at hk
      subst hk
      rw [htok] at hd
      simp only at hd
      have hname := objectWalk_name rest 0 none true
        { u := { UUID := "", Name := "" }, savedError := none } (by simp) hno
      split at hd
      · cases hd
      · simp only [Except.ok.injEq] at hd
        rw [← hd, hname]
    · cases hk

/-! ## Lemmas on the seed insert -/

theorem hasKey_append (t extra : List User) (uuid : String) :
    hasKey (t ++ extra) uuid = (hasKey t uuid || hasKey extra uuid) := by
  simp [hasKey]

theorem distinctKeys_append_fresh (t : List User) (u : User) (hd : distinctKeys t)
    (hk : hasKey t u.UUID = false) : distinctKeys (t ++ [u]) := by
  unfold distinctKeys at *
  rw [List.map_append, List.nodup_append]
  refine ⟨hd, by simp, ?_⟩
  intro a ha hb
  simp only [List.map_cons, List.map_nil, List.mem_singleton] at hb
  subst hb
  obtain ⟨row, hr, he⟩ := List.mem_map.1 ha
  have : hasKey t u.UUID = true := (hasKey_iff t u.UUID).2 ⟨row, hr, he⟩
  rw [hk] at this
  cases this

/-- The seed insert on rows that fit the columns: it succeeds, it only appends,
what it appends are rows of the statement, every key of the statement is a key
afterwards, and distinct keys stay distinct. -/
theorem insertOrKeep_spec (rows : List User) (hfit : ∀ u ∈ rows, checkWidths u = .ok ()) :
    ∀ t : List User, ∃ extra : List User,
      insertOrKeep t rows = .ok (t ++ extra)
        ∧ (∀ u ∈ extra, u ∈ rows)
        ∧ (∀ u ∈ rows, hasKey (t ++ extra) u.UUID = true)
        ∧ (distinctKeys t → distinctKeys (t ++ extra)) := by
  induction rows with
  | nil =>
    intro t
    exact ⟨[], by simp [insertOrKeep], by simp, by simp, by simp⟩
  | cons u rest ih =>
    intro t
    have hu : checkWidths u = .ok () := hfit u (List.mem_cons_self _ _)
    have hrest : ∀ v ∈ rest, checkWidths v = .ok () :=
      fun v hv => hfit v (List.mem_cons_of_mem _ hv)
    cases hk : hasKey t u.UUID with
    | true =>
      obtain ⟨extra, h1, h2, h3, h4⟩ := ih hrest t
      refine ⟨extra, by simp [insertOrKeep, hu, hk, h1],
        fun v hv => List.mem_cons_of_mem _ (h2 v hv), ?_, h4⟩
      intro v hv
      rcases List.mem_cons.1 hv with rfl | hv
      · rw [hasKey_append, hk]
        rfl
      · exact h3 v hv
    | false =>
      obtain ⟨extra, h1, h2, h3, h4⟩ := ih hrest (t ++ [u])
      refine ⟨u :: extra, by simp [insertOrKeep, hu, hk, h1], ?_, ?_, ?_⟩
      · intro v hv
        rcases List.mem_cons.1 hv with rfl | hv
        · exact List.mem_cons_self _ _
        · exact List.mem_cons_of_mem _ (h2 v hv)
      · intro v hv
        have e : t ++ u :: extra = t ++ [u] ++ extra := by simp
        rw [e]
        rcases List.mem_cons.1 hv with rfl | hv
        · rw [hasKey_append, hasKey_append]
          simp [hasKey]
        · exact h3 v hv
      · intro hd
        have e : t ++ u :: extra = t ++ [u] ++ extra := by simp
        rw [e]
        exact h4 (distinctKeys_append_fresh t u hd hk)

/-- The seed insert changes nothing when every key of the statement is taken. -/
theorem insertOrKeep_noop (rows : List User) (hfit : ∀ u ∈ rows, checkWidths u = .ok ())
    (t : List User) (hk : ∀ u ∈ rows, hasKey t u.UUID = true) : insertOrKeep t rows = .ok t := by
  induction rows with
  | nil => rfl
  | cons u rest ih =>
    have hu : checkWidths u = .ok () := hfit u (List.mem_cons_self _ _)
    simp only [insertOrKeep, hu, hk u (List.mem_cons_self _ _), if_true]
    exact ih (fun v hv => hfit v (List.mem_cons_of_mem _ hv))
      (fun v hv => hk v (List.mem_cons_of_mem _ hv))

theorem seedUsers_fit : ∀ u ∈ seedUsers, checkWidths u = .ok () := by
  intro u hu
  simp only [seedUsers, List.mem_cons, List.mem_singleton, List.not_mem_nil, or_false] at hu
  rcases hu with rfl | rfl | rfl <;> rfl

/-- The two steps of `setupUsers` on a connection whose `Exec` reports nothing. -/
theorem setupUsers_result (db : Conn) (s : Store) (hc : db.execErr = none) :
    ∃ extra : List User,
      setupUsers db s =
          ({ users := some (s.users.getD [] ++ extra),
             journal := s.journal ++ [.exec createTableQuery []]
               ++ [.exec insertInitialUsersQuery []] }, .ok ())
        ∧ (∀ u ∈ extra, u ∈ seedUsers)
        ∧ (∀ u ∈ seedUsers, hasKey (s.users.getD [] ++ extra) u.UUID = true)
        ∧ (distinctKeys (s.users.getD []) → distinctKeys (s.users.getD [] ++ extra)) := by
  obtain ⟨extra, h1, h2, h3, h4⟩ := insertOrKeep_spec seedUsers seedUsers_fit (s.users.getD [])
  refine ⟨extra, ?_, h2, h3, h4⟩
  simp [setupUsers, Conn.Exec, Conn.execute, hc, runCommand, createTableQuery,
    insertInitialUsersQuery, h1, Except.map]

/-! ## The wire format: the scanner on what the encoder writes -/

theorem seg_nil (s : Scanner) : Seg s [] [] s :=
  ⟨fun _ => rfl, fun _ _ _ => rfl⟩

theorem seg_append {s s1 s2 : Scanner} {a b : List Char} {e1 e2 : List (Op × Char)}
    (h1 : Seg s a e1 s1) (h2 : Seg s1 b e2 s2) : Seg s (a ++ b) (e1 ++ e2) s2 := by
  refine ⟨fun rest => ?_, fun input rest n => ?_⟩
  · rw [List.append_assoc, h1.1, h2.1, List.append_assoc]
  · rw [List.append_assoc, h1.2, h2.2, List.length_append, Nat.add_assoc]

theorem seg_single {s s1 : Scanner} {c : Char} {op : Op} (h : s.feed c = (s1, op))
    (hp : op.passes = true) : Seg s [c] [(op, c)] s1 := by
  refine ⟨fun rest => ?_, fun input rest n => ?_⟩
  · simp [scanValue, h]
  · simp only [List.singleton_append, readValue, h, List.length_singleton]
    cases op <;> simp_all [Op.passes]

/-- Go's `readValue` also reads on through the closing byte of a container that is
not the top-level value. -/
theorem seg_close {s s1 : Scanner} {c : Char} {op : Op} (h : s.feed c = (s1, op))
    (hop : op = .scanEndObject ∨ op = .scanEndArray)
    (hs : Scanner.stateEndValue s1 ' ' = (s1, .scanSkipSpace)) : Seg s [c] [(op, c)] s1 := by
  refine ⟨fun rest => ?_, fun input rest n => ?_⟩
  · simp [scanValue, h]
  · simp only [List.singleton_append, readValue, h, List.length_singleton]
    rcases hop with rfl | rfl <;> simp [hs]

theorem hexDigit_spec :
    ∀ k : Fin 16, Scanner.isHex (hexDigit k.1) = true ∧ hexVal (hexDigit k.1) = k.1 := by
  decide

theorem hexDigit_isHex (k : Nat) (h : k < 16) : Scanner.isHex (hexDigit k) = true :=
  (hexDigit_spec ⟨k, h⟩).1

theorem hexDigit_val (k : Nat) (h : k < 16) : hexVal (hexDigit k) = k :=
  (hexDigit_spec ⟨k, h⟩).2

theorem escapeChar_shape (c : Char) : EscapeShape c (escapeChar c) := by
  by_cases g1 : c = '\\' ∨ c = '"'
  · have h : escapeChar c = ['\\', c] := by simp only [escapeChar, if_pos g1]
    rw [h]
    refine Or.inr (Or.inl ⟨c, rfl, ?_, ?_⟩)
    · rcases g1 with rfl | rfl <;> simp
    · rcases g1 with rfl | rfl <;> rfl
  by_cases g2 : c = '\x08'
  · have h : escapeChar c = ['\\', 'b'] := by simp only [escapeChar, if_neg g1, if_pos g2]
    rw [h]
    exact Or.inr (Or.inl ⟨'b', rfl, by simp, by rw [g2]; rfl⟩)
  by_cases g3 : c = '\x0c'
  · have h : escapeChar c = ['\\', 'f'] := by
      simp only [escapeChar, if_neg g1, if_neg g2, if_pos g3]
    rw [h]
    exact Or.inr (Or.inl ⟨'f', rfl, by simp, by rw [g3]; rfl⟩)
  by_cases g4 : c = '\n'
  · have h : escapeChar c = ['\\', 'n'] := by
      simp only [escapeChar, if_neg g1, if_neg g2, if_neg g3, if_pos g4]
    rw [h]
    exact Or.inr (Or.inl ⟨'n', rfl, by simp, by rw [g4]; rfl⟩)
  by_cases g5 : c = '\r'
  · have h : escapeChar c = ['\\', 'r'] := by
      simp only [escapeChar, if_neg g1, if_neg g2, if_neg g3, if_neg g4, if_pos g5]
    rw [h]
    exact Or.inr (Or.inl ⟨'r', rfl, by simp, by rw [g5]; rfl⟩)
  by_cases g6 : c = '\t'
  · have h : escapeChar c = ['\\', 't'] := by
      simp only [escapeChar, if_neg g1, if_neg g2, if_neg g3, if_neg g4, if_neg g5, if_pos g6]
    rw [h]
    exact Or.inr (Or.inl ⟨'t', rfl, by simp, by rw [g6]; rfl⟩)
  by_cases g7 : c.toNat < 0x20 ∨ c = '<' ∨ c = '>' ∨ c = '&'
  · have h : escapeChar c =
        ['\\', 'u', '0', '0', hexDigit (c.toNat / 16), hexDigit (c.toNat % 16)] := by
      simp only [escapeChar, if_neg g1, if_neg g2, if_neg g3, if_neg g4, if_neg g5, if_neg g6,
        if_pos g7]
    rw [h]
    have hn : c.toNat < 0x40 := by
      rcases g7 with h | rfl | rfl | rfl
      · omega
      · decide
      · decide
      · decide
    have hd : c.toNat / 16 < 16 := by omega
    have hm : c.toNat % 16 < 16 := Nat.mod_lt _ (by decide)
    refine Or.inr (Or.inr ⟨'0', '0', hexDigit (c.toNat / 16), hexDigit (c.toNat % 16), rfl,
      by decide, by decide, hexDigit_isHex _ hd, hexDigit_isHex _ hm, ?_, by omega⟩)
    have h0 : hexVal '0' = 0 := by decide
    simp only [getu4, h0, hexDigit_val _ hd, hexDigit_val _ hm]
    omega
  by_cases g8 : c.toNat = 0x2028 ∨ c.toNat = 0x2029
  · have h : escapeChar c = ['\\', 'u', '2', '0', '2', hexDigit (c.toNat % 16)] := by
      simp only [escapeChar, if_neg g1, if_neg g2, if_neg g3, if_neg g4, if_neg g5, if_neg g6,
        if_neg g7, if_pos g8]
    rw [h]
    have hm : c.toNat % 16 < 16 := Nat.mod_lt _ (by decide)
    refine Or.inr (Or.inr ⟨'2', '0', '2', hexDigit (c.toNat % 16), rfl,
      by decide, by decide, by decide, hexDigit_isHex _ hm, ?_, by omega⟩)
    have h0 : hexVal '0' = 0 := by decide
    have h2 : hexVal '2' = 2 := by decide
    simp only [getu4, h0, h2, hexDigit_val _ hm]
    omega
  · have h : escapeChar c = [c] := by
      simp only [escapeChar, if_neg g1, if_neg g2, if_neg g3, if_neg g4, if_neg g5, if_neg g6,
        if_neg g7, if_neg g8]
    rw [h]
    refine Or.inl ⟨rfl, fun h => g1 (Or.inr h), fun h => g1 (Or.inl h), ?_⟩
    have := fun h => g7 (Or.inl h)
    omega

theorem seg_escape (c : Char) (bytes : List Char) (h : EscapeShape c bytes)
    (ps : List ParseState) :
    Seg (st .stateInString ps) bytes (bytes.map (fun b => (Op.scanContinue, b)))
      (st .stateInString ps) := by
  have hbs : (st .stateInString ps).feed '\\' = (st .stateInStringEsc ps, .scanContinue) := by
    simp [Scanner.feed, st]
  rcases h with ⟨rfl, h1, h2, h3⟩ | ⟨e, rfl, he, _⟩ | ⟨h1, h2, h3, h4, rfl, g1, g2, g3, g4, _, _⟩
  · refine seg_single ?_ rfl
    have : ¬ c.toNat < 32 := by omega
    simp [Scanner.feed, st, h1, h2, this]
  · have he2 : (st .stateInStringEsc ps).feed e = (st .stateInString ps, .scanContinue) := by
      rcases he with rfl | rfl | rfl | rfl | rfl | rfl | rfl <;> simp [Scanner.feed, st]
    exact seg_append (seg_single hbs rfl) (seg_single he2 rfl)
  · have hu : (st .stateInStringEsc ps).feed 'u' = (st .stateInStringEscU ps, .scanContinue) := by
      simp [Scanner.feed, st]
    have k1 : (st .stateInStringEscU ps).feed h1 = (st .stateInStringEscU1 ps, .scanContinue) := by
      simp [Scanner.feed, st, Scanner.hexByte, g1]
    have k2 : (st .stateInStringEscU1 ps).feed h2
        = (st .stateInStringEscU12 ps, .scanContinue) := by
      simp [Scanner.feed, st, Scanner.hexByte, g2]
    have k3 : (st .stateInStringEscU12 ps).feed h3
        = (st .stateInStringEscU123 ps, .scanContinue) := by
      simp [Scanner.feed, st, Scanner.hexByte, g3]
    have k4 : (st .stateInStringEscU123 ps).feed h4 = (st .stateInString ps, .scanContinue) := by
      simp [Scanner.feed, st, Scanner.hexByte, g4]
    exact seg_append (seg_single hbs rfl) (seg_append (seg_single hu rfl)
      (seg_append (seg_single k1 rfl) (seg_append (seg_single k2 rfl)
        (seg_append (seg_single k3 rfl) (seg_single k4 rfl)))))

theorem seg_content (l : List Char) (ps : List ParseState) :
    Seg (st .stateInString ps) (l.flatMap escapeChar)
      ((l.flatMap escapeChar).map (fun b => (Op.scanContinue, b))) (st .stateInString ps) := by
  induction l with
  | nil => exact seg_nil _
  | cons c rest ih =>
    rw [List.flatMap_cons, List.map_append]
    exact seg_append (seg_escape c _ (escapeChar_shape c) ps) ih

/-- A string literal takes the scanner from where a string may begin to the end
of a value. -/
theorem seg_quoted (s : String) (x : Step) (ps : List ParseState)
    (hx : (st x ps).feed '"' = (st .stateInString ps, .scanBeginLiteral)) :
    Seg (st x ps) (quoted s) (litEvents (quoted s)) (st .stateEndValue ps) := by
  have hq : (st .stateInString ps).feed '"' = (st .stateEndValue ps, .scanContinue) := by
    simp [Scanner.feed, st]
  have h := seg_append (seg_single hx rfl)
    (seg_append (seg_content s.toList ps) (seg_single hq rfl))
  simpa [quoted, litEvents] using h

theorem marshalString_toList (s : String) : (marshalString s).toList = quoted s := rfl

theorem marshalUser_toList (u : User) : (marshalUser u).toList = userChars u := by
  simp only [marshalUser, String.toList, String.data_append, userChars]
  have h1 : quoted "uuid" = ['"', 'u', 'u', 'i', 'd', '"'] := by decide
  have h2 : quoted "name" = ['"', 'n', 'a', 'm', 'e', '"'] := by decide
  have h4 : ∀ s, (marshalString s).data = quoted s := fun _ => rfl
  rw [h1, h2, h4, h4]
  simp

/-- One user inside an array: the scanner goes from the start of an element to
the end of a value, with the events of the user. -/
theorem seg_user (u : User) (x : Step)
    (hx : (st x [.parseArrayValue]).feed '\x7b'
      = (st .stateBeginStringOrEmpty [.parseObjectKey, .parseArrayValue], .scanBeginObject)) :
    Seg (st x [.parseArrayValue]) (userChars u) (userEvents u)
      (st .stateEndValue [.parseArrayValue]) := by
  have q1 := seg_quoted "uuid" .stateBeginStringOrEmpty [.parseObjectKey, .parseArrayValue]
    (by decide)
  have c1 : (st .stateEndValue [.parseObjectKey, .parseArrayValue]).feed ':'
      = (st .stateBeginValue [.parseObjectValue, .parseArrayValue], .scanObjectKey) := by decide
  have q2 := seg_quoted u.UUID .stateBeginValue [.parseObjectValue, .parseArrayValue] (by decide)
  have c2 : (st .stateEndValue [.parseObjectValue, .parseArrayValue]).feed ','
      = (st .stateBeginString [.parseObjectKey, .parseArrayValue], .scanObjectValue) := by decide
  have q3 := seg_quoted "name" .stateBeginString [.parseObjectKey, .parseArrayValue] (by decide)
  have q4 := seg_quoted u.Name .stateBeginValue [.parseObjectValue, .parseArrayValue] (by decide)
  have c3 : (st .stateEndValue [.parseObjectValue, .parseArrayValue]).feed '\x7d'
      = (st .stateEndValue [.parseArrayValue], .scanEndObject) := by decide
  have e3 : Scanner.stateEndValue (st .stateEndValue [.parseArrayValue]) ' '
      = (st .stateEndValue [.parseArrayValue], .scanSkipSpace) := by decide
  have h := seg_append (seg_single hx rfl) (seg_append q1 (seg_append (seg_single c1 rfl)
    (seg_append q2 (seg_append (seg_single c2 rfl) (seg_append q3 (seg_append (seg_single c1 rfl)
      (seg_append q4 (seg_close c3 (Or.inl rfl) e3))))))))
  simpa [userChars, userEvents] using h

theorem intercalate_go_data (sep acc : String) (l : List String) :
    (String.intercalate.go acc sep l).data
      = acc.data ++ l.flatMap (fun x => sep.data ++ x.data) := by
  induction l generalizing acc with
  | nil => simp [String.intercalate.go]
  | cons x rest ih => simp [String.intercalate.go, ih, String.data_append]

theorem marshalArray_toList (u : User) (rest : List User) :
    (marshalArray ((u :: rest).map marshalUser)).toList = arrayChars u rest := by
  have h4 : ∀ v, (marshalUser v).data = userChars v := marshalUser_toList
  simp only [marshalArray, String.toList, String.data_append, List.map_cons, String.intercalate,
    intercalate_go_data, arrayChars, h4]
  simp [List.flatMap_map, h4]

theorem seg_users (rest : List User) :
    Seg (st .stateEndValue [.parseArrayValue]) (rest.flatMap (fun v => ',' :: userChars v))
      (rest.flatMap (fun v => (Op.scanArrayValue, ',') :: userEvents v))
      (st .stateEndValue [.parseArrayValue]) := by
  induction rest with
  | nil => exact seg_nil _
  | cons v rest ih =>
    have c : (st .stateEndValue [.parseArrayValue]).feed ','
        = (st .stateBeginValue [.parseArrayValue], .scanArrayValue) := by decide
    have h := seg_append (seg_append (seg_single c rfl) (seg_user v .stateBeginValue (by decide))) ih
    simpa using h

/-- The scanner on a JSON array of users: the events, and the whole input is
one value. -/
theorem scan_array (u : User) (rest : List User) :
    scanValue Scanner.reset (arrayChars u rest) = arrayEvents u rest
      ∧ ∀ input, readValue input Scanner.reset (arrayChars u rest) 0
          = .ok (arrayChars u rest).length := by
  have o : Scanner.reset.feed '[' = (st .stateBeginValueOrEmpty [.parseArrayValue],
      .scanBeginArray) := by decide
  have h := seg_append (seg_append (seg_single o rfl)
    (seg_user u .stateBeginValueOrEmpty (by decide))) (seg_users rest)
  have e1 : scanValue (st .stateEndValue [.parseArrayValue]) [']'] = [(.scanEndArray, ']')] := by
    decide
  have e2 : ∀ input n, readValue input (st .stateEndValue [.parseArrayValue]) [']'] n
      = .ok (n + 1) := by
    intro input n
    have f : (st .stateEndValue [.parseArrayValue]).feed ']'
        = ({ step := .stateEndTop, endTop := true, parseState := [], err := none },
            .scanEndArray) := by decide
    have g : (Scanner.stateEndValue
        { step := .stateEndTop, endTop := true, parseState := [], err := none } ' ').2
        = .scanEnd := by decide
    simp [readValue, f, g]
  refine ⟨?_, fun input => ?_⟩
  · have := h.1 [']']
    rw [e1] at this
    simpa [arrayChars, arrayEvents] using this
  · have := h.2 input [']'] 0
    rw [e2] at this
    have hc : arrayChars u rest
        = (['['] ++ userChars u ++ rest.flatMap (fun v => ',' :: userChars v)) ++ [']'] := by
      simp [arrayChars]
    rw [hc, this]
    simp
    omega

/-! ## The wire format: reading back what the encoder writes -/

theorem unquoteChars_escape (c : Char) (bytes : List Char) (h : EscapeShape c bytes)
    (rest : List Char) : unquoteChars (bytes ++ rest) 0 = c :: unquoteChars rest 0 := by
  rcases h with ⟨rfl, _, h2, _⟩ | ⟨e, rfl, he, hu⟩ | ⟨h1, h2, h3, h4, rfl, _, _, _, _, hv, hlt⟩
  · simp [unquoteChars, h2]
  · have hne : e ≠ 'u' := by
      rcases he with rfl | rfl | rfl | rfl | rfl | rfl | rfl <;> decide
    simp [unquoteChars, hne, hu]
  · have hs : ¬ (0xD800 ≤ getu4 h1 h2 h3 h4 ∧ getu4 h1 h2 h3 h4 < 0xE000) := by omega
    simp only [List.cons_append, List.nil_append, unquoteChars, if_true]
    simp only [List.append_eq, List.nil_append, List.cons_append, if_true]
    rw [if_neg hs, hv, Char.ofNat_toNat]

theorem unquoteChars_content (l : List Char) :
    unquoteChars (l.flatMap escapeChar) 0 = l := by
  induction l with
  | nil => rfl
  | cons c rest ih =>
    rw [List.flatMap_cons, unquoteChars_escape c _ (escapeChar_shape c), ih]

/-- Reading back a string literal gives the string that was written. -/
theorem unquote_quoted (s : String) : unquote (quoted s) = s := by
  simp [unquote, quoted, unquoteChars_content]

theorem tokens_continue (cs : List Char) (rest : List (Op × Char)) (acc : List Char) :
    tokens (cs.map (fun b => (Op.scanContinue, b)) ++ rest) (some acc)
      = tokens rest (some (cs.reverse ++ acc)) := by
  induction cs generalizing acc with
  | nil => rfl
  | cons c cs ih => simp [tokens, ih]

theorem tokens_structural (op : Op) (c : Char) (rest : List (Op × Char))
    (cur : Option (List Char)) (h : op.structural = true) :
    tokens ((op, c) :: rest) cur = flushLiteral cur ++ .punct op :: tokens rest none := by
  cases op <;> simp_all [Op.structural, tokens]

theorem tokens_quoted (s : String) (op : Op) (c : Char) (rest : List (Op × Char))
    (h : op.structural = true) :
    tokens (litEvents (quoted s) ++ (op, c) :: rest) none
      = .literal (quoted s) :: .punct op :: tokens rest none := by
  simp only [quoted, litEvents, List.cons_append, tokens, flushLiteral, List.nil_append,
    List.append_eq]
  rw [tokens_continue, tokens_structural _ _ _ _ h]
  simp [flushLiteral]

theorem tokens_user (u : User) (more : List (Op × Char)) :
    tokens (userEvents u ++ more) none = userTokens u ++ tokens more none := by
  simp only [userEvents, List.cons_append, List.append_assoc, List.nil_append]
  rw [tokens_structural .scanBeginObject _ _ _ rfl, tokens_quoted _ .scanObjectKey _ _ rfl,
    tokens_quoted _ .scanObjectValue _ _ rfl, tokens_quoted _ .scanObjectKey _ _ rfl,
    tokens_quoted _ .scanEndObject _ _ rfl]
  rfl

theorem tokens_users (rest : List User) (more : List (Op × Char)) :
    tokens (rest.flatMap (fun v => (Op.scanArrayValue, ',') :: userEvents v) ++ more) none
      = rest.flatMap (fun v => .punct .scanArrayValue :: userTokens v) ++ tokens more none := by
  induction rest with
  | nil => rfl
  | cons v rest ih =>
    simp only [List.flatMap_cons, List.cons_append, List.append_assoc]
    rw [tokens_structural .scanArrayValue _ _ _ rfl, tokens_user, ih]
    simp [flushLiteral]

theorem tokens_array (u : User) (rest : List User) :
    tokens (arrayEvents u rest) none
      = .punct .scanBeginArray :: (userTokens u
          ++ (rest.flatMap (fun v => .punct .scanArrayValue :: userTokens v)
            ++ [.punct .scanEndArray])) := by
  simp only [arrayEvents, List.cons_append]
  rw [tokens_structural .scanBeginArray _ _ _ rfl, tokens_user, tokens_users]
  simp [flushLiteral, tokens]

theorem literalStore_quoted (d : DecodeState) (s : String) (f : Field) :
    d.literalStore (quoted s) f =
      (match f with
        | .uuid => { d with u := { d.u with UUID := s } }
        | .name => { d with u := { d.u with Name := s } }) := by
  have h := unquote_quoted s
  simp only [quoted, String.toList] at h
  simp only [quoted, DecodeState.literalStore]
  cases f <;> simp [h]

theorem userOfTokens_userTokens (u : User) : userOfTokens (userTokens u) = some u := by
  have k1 : lookupField "uuid" = some .uuid := by decide
  have k2 : lookupField "name" = some .name := by decide
  have k3 : unquote (quoted "uuid") = "uuid" := unquote_quoted _
  have k4 : unquote (quoted "name") = "name" := unquote_quoted _
  simp [userOfTokens, userTokens, objectWalk, objectKeys, k1, k2, k3, k4, literalStore_quoted]

theorem splitElems_user (u : User) (more cur : List Token) :
    splitElems (userTokens u ++ more) 0 cur = splitElems more 0 ((userTokens u).reverse ++ cur) := by
  simp [userTokens, splitElems]

theorem splitElems_sep (more cur : List Token) :
    splitElems (.punct .scanArrayValue :: more) 0 cur = cur.reverse :: splitElems more 0 [] := by
  simp [splitElems]

theorem splitElems_users (u : User) (rest : List User) (cur : List Token) :
    splitElems (userTokens u ++ (rest.flatMap (fun v => .punct .scanArrayValue :: userTokens v)
        ++ [.punct .scanEndArray])) 0 cur
      = (cur.reverse ++ userTokens u) :: rest.map userTokens := by
  induction rest generalizing u cur with
  | nil =>
    rw [splitElems_user]
    simp [splitElems, userTokens]
  | cons v rest ih =>
    rw [splitElems_user]
    simp only [List.flatMap_cons, List.cons_append, List.append_assoc]
    rw [splitElems_sep, ih v []]
    simp

theorem allSome_map {α β : Type} (f : α → β) (g : β → Option α) (l : List α)
    (h : ∀ a, g (f a) = some a) : allSome ((l.map f).map g) = some l := by
  induction l with
  | nil => rfl
  | cons a rest ih =>
    show allSome (g (f a) :: (rest.map f).map g) = some (a :: rest)
    rw [h]
    simp only [allSome]
    rw [ih]

/-- Reading back what `json.Marshal` writes for a slice of users that is not
empty gives the users, in order. -/
theorem parseUserArray_marshal (users : List User) (hne : users ≠ []) :
    parseUserArray (marshalArray (users.map marshalUser)) = some users := by
  cases users with
  | nil => exact absurd rfl hne
  | cons u rest =>
    have hc := marshalArray_toList u rest
    obtain ⟨hs, hr⟩ := scan_array u rest
    unfold parseUserArray
    rw [hc, hr, hs, tokens_array]
    simp only [if_true]
    rw [splitElems_users]
    exact allSome_map userTokens userOfTokens (u :: rest) userOfTokens_userTokens

/-! ## The claims -/

/-- C1 (amended): on a table without rows, when the query and the iteration
report no error, `getUsers` answers 200 with `Content-Type: application/json`
and the body is the JSON text `null`. -/
theorem getUsers_empty (uh : userHandler) (s : Store) (r : Request)
    (hu : s.users = some []) (hq : uh.db.queryErr = none) (hn : uh.db.nextErr = none) :
    (serve uh.getUsers s r).2.status = 200
      ∧ (serve uh.getUsers s r).2.header.Get "Content-Type" = some "application/json"
      ∧ (serve uh.getUsers s r).2.body = "null" := by
  rw [getUsers_response, QueryContext_result]
  simp only [Conn.select, hq, hu, Conn.rowsOf, hn]
  exact ⟨rfl, rfl, rfl⟩

/-- Witness for C1 (amended). -/
theorem getUsers_empty_witness :
    ((⟨some [], []⟩ : Store).users = some [] ∧ Conn.healthy.queryErr = none
        ∧ Conn.healthy.nextErr = none)
      ∧ (serve (userHandler.getUsers ⟨Conn.healthy⟩) ⟨some [], []⟩ ⟨"GET", ""⟩).2.status = 200
      ∧ (serve (userHandler.getUsers ⟨Conn.healthy⟩) ⟨some [], []⟩ ⟨"GET", ""⟩).2.header.Get
          "Content-Type" = some "application/json"
      ∧ (serve (userHandler.getUsers ⟨Conn.healthy⟩) ⟨some [], []⟩ ⟨"GET", ""⟩).2.body = "null" :=
  ⟨⟨rfl, rfl, rfl⟩, getUsers_empty ⟨Conn.healthy⟩ ⟨some [], []⟩ ⟨"GET", ""⟩ rfl rfl rfl⟩

/-- Counterexample to C1: the table is empty, the query succeeds, and the body
of the 200 response is `null`, which is not `[]`. -/
theorem getUsers_empty_counterexample :
    (serve (userHandler.getUsers ⟨Conn.healthy⟩) ⟨some [], []⟩ ⟨"GET", ""⟩).2 =
        { status := 200, header := ⟨[("Content-Type", "application/json")]⟩, body := "null" }
      ∧ (serve (userHandler.getUsers ⟨Conn.healthy⟩) ⟨some [], []⟩ ⟨"GET", ""⟩).2.body ≠ "[]" := by
  decide

/-- C2 (amended): when the body is a well-formed JSON object that lacks the
field `name` and decodes, the name decodes as the empty string; `createUser`
answers 400 exactly when the store reports an error at `Prepare` or `Exec`,
the body is then that error text as `http.Error` writes it and the table is
unchanged; otherwise it answers 201 with body `user added`, the key was free
and the row is stored under an empty name.  In particular it answers 201
whenever `Prepare` and `Exec` report no error of their own, the table exists,
the `uuid` has at most 36 characters and is not yet a key. -/
theorem createUser_missing_name (uh : userHandler) (s : Store) (r : Request) (u : User)
    (hd : jsonDecode r.Body = .ok u) (hl : lacksName r.Body = true) :
    u.Name = ""
      ∧ ((serve uh.createUser s r).2.status = 400 ↔ ∃ err, insertFails uh s u err)
      ∧ ((serve uh.createUser s r).2.status = 400 →
          ∃ err, insertFails uh s u err ∧ (serve uh.createUser s r).2.body = err ++ "\n"
            ∧ (serve uh.createUser s r).1.users = s.users)
      ∧ ((serve uh.createUser s r).2.status ≠ 400 →
          (serve uh.createUser s r).2 = { status := 201, header := ⟨[]⟩, body := "user added" }
            ∧ ∃ t, s.users = some t ∧ (∀ row ∈ t, row.UUID ≠ u.UUID) ∧ u.UUID.length ≤ 36
              ∧ (serve uh.createUser s r).1.users = some (t ++ [⟨u.UUID, ""⟩]))
      ∧ ∀ t : List User, uh.db.prepareErr = none → uh.db.execErr = none → s.users = some t →
          u.UUID.length ≤ 36 → (∀ row ∈ t, row.UUID ≠ u.UUID) →
          (serve uh.createUser s r).2.status = 201 := by
  have hname : u.Name = "" := jsonDecode_lacksName r.Body u hd hl
  have hu : u = ⟨u.UUID, ""⟩ := by
    cases u
    simp only at hname
    rw [hname]
  refine ⟨hname, ?_⟩
  rw [createUser_decoded uh s r u hd]
  unfold insertFails
  cases hp : uh.db.prepare s.users insertUserQuery with
  | error e =>
    simp only [finishRequest_httpError]
    refine ⟨⟨fun _ => ⟨e, Or.inl rfl⟩, fun _ => trivial⟩,
      fun _ => ⟨e, Or.inl rfl, rfl, trivial⟩, fun h => absurd rfl h, ?_⟩
    intro t hpe _ hs _ _
    rw [hs] at hp
    simp [Conn.prepare, hpe, Conn.needsTable, insertUserQuery] at hp
  | ok stmt =>
    have hq : stmt.q = insertUserQuery := prepare_ok _ _ _ _ hp
    simp only [hq]
    cases he : uh.db.execute s.users insertUserQuery [u.UUID, u.Name] with
    | error e =>
      simp only [finishRequest_httpError]
      refine ⟨⟨fun _ => ⟨e, Or.inr ⟨⟨stmt, rfl⟩, rfl⟩⟩, fun _ => trivial⟩,
        fun _ => ⟨e, Or.inr ⟨⟨stmt, rfl⟩, rfl⟩, rfl, trivial⟩, fun h => absurd rfl h, ?_⟩
      intro t _ hee hs h1 hfresh
      have h2 : u.Name.length ≤ 100 := by rw [hname]; decide
      have := execute_insert_fresh uh.db t u hee h1 h2 hfresh
      rw [hs] at he
      rw [show insertUserQuery = Command.insert from rfl] at he
      rw [this] at he
      cases he
    | ok users =>
      obtain ⟨t, hs, hfresh, h1, _, hres⟩ := execute_insert_ok uh.db s.users users u he
      simp only
      refine ⟨⟨fun h => absurd h (by decide), ?_⟩, fun h => absurd h (by decide),
        fun _ => ⟨trivial, t, hs, hfresh, h1, ?_⟩, fun _ _ _ _ _ _ => trivial⟩
      · rintro ⟨err, h | ⟨_, h⟩⟩
        · cases h
        · cases h
      · rw [hres, ← hu]

/-- Witness for C2 (amended): the body `{"uuid":"x"}` on an empty table, which
is answered 201. -/
theorem createUser_missing_name_witness :
    (jsonDecode xPost.Body = .ok ⟨"x", ""⟩ ∧ lacksName xPost.Body = true)
      ∧ ((⟨"x", ""⟩ : User).Name = ""
        ∧ ((serve (userHandler.createUser ⟨Conn.healthy⟩) emptyStore xPost).2.status = 400
            ↔ ∃ err, insertFails ⟨Conn.healthy⟩ emptyStore ⟨"x", ""⟩ err)
        ∧ ((serve (userHandler.createUser ⟨Conn.healthy⟩) emptyStore xPost).2.status = 400 →
            ∃ err, insertFails ⟨Conn.healthy⟩ emptyStore ⟨"x", ""⟩ err
              ∧ (serve (userHandler.createUser ⟨Conn.healthy⟩) emptyStore xPost).2.body
                  = err ++ "\n"
              ∧ (serve (userHandler.createUser ⟨Conn.healthy⟩) emptyStore xPost).1.users
                  = emptyStore.users)
        ∧ ((serve (userHandler.createUser ⟨Conn.healthy⟩) emptyStore xPost).2.status ≠ 400 →
            (serve (userHandler.createUser ⟨Conn.healthy⟩) emptyStore xPost).2
                = { status := 201, header := ⟨[]⟩, body := "user added" }
              ∧ ∃ t, emptyStore.users = some t
                ∧ (∀ row ∈ t, row.UUID ≠ (⟨"x", ""⟩ : User).UUID)
                ∧ (⟨"x", ""⟩ : User).UUID.length ≤ 36
                ∧ (serve (userHandler.createUser ⟨Conn.healthy⟩) emptyStore xPost).1.users
                    = some (t ++ [⟨(⟨"x", ""⟩ : User).UUID, ""⟩]))
        ∧ ∀ t : List User, Conn.healthy.prepareErr = none → Conn.healthy.execErr = none →
            emptyStore.users = some t → (⟨"x", ""⟩ : User).UUID.length ≤ 36 →
            (∀ row ∈ t, row.UUID ≠ (⟨"x", ""⟩ : User).UUID) →
            (serve (userHandler.createUser ⟨Conn.healthy⟩) emptyStore xPost).2.status = 201)
      ∧ (serve (userHandler.createUser ⟨Conn.healthy⟩) emptyStore xPost).2.status = 201 :=
  ⟨⟨rfl, rfl⟩,
    createUser_missing_name ⟨Conn.healthy⟩ emptyStore xPost ⟨"x", ""⟩ rfl rfl,
    rfl⟩

/-- Counterexample to C2: the body `{"uuid":"x"}` is a well-formed JSON object
without a `name` field; on an empty table `createUser` answers 201, not 400,
and stores the row with an empty name. -/
theorem createUser_missing_name_counterexample :
    jsonDecode "\x7b\"uuid\":\"x\"\x7d" = .ok ⟨"x", ""⟩
      ∧ serve (userHandler.createUser ⟨Conn.healthy⟩) ⟨some [], []⟩
          ⟨"POST", "\x7b\"uuid\":\"x\"\x7d"⟩ =
        (⟨some [⟨"x", ""⟩], [.prepare .insert, .exec .insert ["x", ""]]⟩,
          { status := 201, header := ⟨[]⟩, body := "user added" })
      ∧ (serve (userHandler.createUser ⟨Conn.healthy⟩) ⟨some [], []⟩
          ⟨"POST", "\x7b\"uuid\":\"x\"\x7d"⟩).2.status ≠ 400 := by
  refine ⟨rfl, rfl, by decide⟩

/-- C3: when the decoded `uuid` is already the key of a stored row, `createUser`
answers 400 and the table after the request is the table before it, whatever
the connection reports. -/
theorem createUser_duplicate (uh : userHandler) (s : Store) (r : Request) (u : User)
    (t : List User) (hd : jsonDecode r.Body = .ok u) (hs : s.users = some t)
    (hk : ∃ row ∈ t, row.UUID = u.UUID) :
    (serve uh.createUser s r).2.status = 400
      ∧ (serve uh.createUser s r).1.users = s.users := by
  rw [createUser_decoded uh s r u hd]
  cases hp : uh.db.prepare s.users insertUserQuery with
  | error err =>
    simp only [finishRequest_httpError]
    exact ⟨trivial, trivial⟩
  | ok stmt =>
    have hq : stmt.q = .insert := prepare_ok _ _ _ _ hp
    obtain ⟨err, he⟩ := execute_insert_duplicate uh.db t u hk
    simp only [hq, hs, he, finishRequest_httpError]
    exact ⟨trivial, trivial⟩

/-- Witness for C3: a second `POST` of the key `k` under another name. -/
theorem createUser_duplicate_witness :
    (jsonDecode (⟨"POST", "\x7b\"uuid\":\"k\",\"name\":\"Bea\"\x7d"⟩ : Request).Body
          = .ok ⟨"k", "Bea"⟩
        ∧ (⟨some [⟨"k", "Ann"⟩], []⟩ : Store).users = some [⟨"k", "Ann"⟩]
        ∧ ∃ row ∈ [(⟨"k", "Ann"⟩ : User)], row.UUID = (⟨"k", "Bea"⟩ : User).UUID)
      ∧ (serve (userHandler.createUser ⟨Conn.healthy⟩) ⟨some [⟨"k", "Ann"⟩], []⟩
          ⟨"POST", "\x7b\"uuid\":\"k\",\"name\":\"Bea\"\x7d"⟩).2.status = 400
      ∧ (serve (userHandler.createUser ⟨Conn.healthy⟩) ⟨some [⟨"k", "Ann"⟩], []⟩
          ⟨"POST", "\x7b\"uuid\":\"k\",\"name\":\"Bea\"\x7d"⟩).1.users
          = (⟨some [⟨"k", "Ann"⟩], []⟩ : Store).users :=
  ⟨⟨rfl, rfl, ⟨_, List.mem_singleton.2 rfl, rfl⟩⟩,
    createUser_duplicate ⟨Conn.healthy⟩ ⟨some [⟨"k", "Ann"⟩], []⟩
      ⟨"POST", "\x7b\"uuid\":\"k\",\"name\":\"Bea\"\x7d"⟩ ⟨"k", "Bea"⟩ [⟨"k", "Ann"⟩] rfl rfl
      ⟨_, List.mem_singleton.2 rfl, rfl⟩⟩

/-- C4: on a table that does not hold the key, with a connection that reports
nothing, the `POST` of a user that fits the columns (`uuid` of at most 36
characters, `name` of at most 100) is answered 201 with body `user added`, and
a `GET` on the resulting store is answered 200 with a body that reads as a JSON
array of `uuid`/`name` objects holding that user and every row present before
the `POST`. -/
theorem post_then_get (uh : userHandler) (s : Store) (t : List User) (u : User)
    (post get : Request) (hc : uh.db.silent) (hs : s.users = some t)
    (hpost : post.Method = "POST") (hbody : jsonDecode post.Body = .ok u)
    (hget : get.Method = "GET") (h1 : u.UUID.length ≤ 36) (h2 : u.Name.length ≤ 100)
    (hfresh : ∀ row ∈ t, row.UUID ≠ u.UUID) :
    (serve uh.ServeHTTP s post).2.status = 201
      ∧ (serve uh.ServeHTTP s post).2.body = "user added"
      ∧ (serve uh.ServeHTTP (serve uh.ServeHTTP s post).1 get).2.status = 200
      ∧ ∃ users : List User,
          parseUserArray (serve uh.ServeHTTP (serve uh.ServeHTTP s post).1 get).2.body
              = some users
            ∧ u ∈ users ∧ ∀ row ∈ t, row ∈ users := by
  have hP : serve uh.ServeHTTP s post = serve uh.createUser s post := by
    simp [serve, userHandler.ServeHTTP, hpost]
  have hG : ∀ s1, serve uh.ServeHTTP s1 get = serve uh.getUsers s1 get := by
    intro s1
    simp [serve, userHandler.ServeHTTP, hget]
  have hprep : uh.db.prepare (some t) insertUserQuery = .ok { q := .insert } := by
    simp [Conn.prepare, hc.1, Conn.needsTable, insertUserQuery]
  have hexec := execute_insert_fresh uh.db t u hc.2.1 h1 h2 hfresh
  have hpostres : serve uh.createUser s post =
      ({ users := some (t ++ [u]), journal := s.journal ++ [.prepare insertUserQuery]
          ++ [.exec .insert [u.UUID, u.Name]] },
        { status := 201, header := ⟨[]⟩, body := "user added" }) := by
    rw [createUser_decoded uh s post u hbody, hs, hprep]
    simp only [hexec]
  rw [hP, hpostres, hG]
  have hne : t ++ [u] ≠ [] := by simp
  rw [getUsers_rows uh _ get (t ++ [u]) hc rfl hne]
  exact ⟨rfl, rfl, rfl, t ++ [u], parseUserArray_marshal _ hne, by simp,
    fun row hr => List.mem_append_left _ hr⟩

/-- Witness for C4: the scenario of the specification, `Dora` posted to a store
holding a seed row, then a `GET`; the bytes of the `GET` body are spelled out. -/
theorem post_then_get_witness :
    (Conn.healthy.silent
        ∧ aliceStore.users = some [⟨"123e4567-e89b-12d3-a456-426614174000", "Alice"⟩]
        ∧ doraPost.Method = "POST" ∧ jsonDecode doraPost.Body = .ok dora
        ∧ (⟨"GET", ""⟩ : Request).Method = "GET"
        ∧ dora.UUID.length ≤ 36 ∧ dora.Name.length ≤ 100
        ∧ ∀ row ∈ [(⟨"123e4567-e89b-12d3-a456-426614174000", "Alice"⟩ : User)],
            row.UUID ≠ dora.UUID)
      ∧ ((serve (userHandler.ServeHTTP ⟨Conn.healthy⟩) aliceStore doraPost).2.status = 201
        ∧ (serve (userHandler.ServeHTTP ⟨Conn.healthy⟩) aliceStore doraPost).2.body
            = "user added"
        ∧ (serve (userHandler.ServeHTTP ⟨Conn.healthy⟩)
            (serve (userHandler.ServeHTTP ⟨Conn.healthy⟩) aliceStore doraPost).1
            ⟨"GET", ""⟩).2.status = 200
        ∧ ∃ users : List User,
            parseUserArray (serve (userHandler.ServeHTTP ⟨Conn.healthy⟩)
              (serve (userHandler.ServeHTTP ⟨Conn.healthy⟩) aliceStore doraPost).1
              ⟨"GET", ""⟩).2.body = some users
            ∧ dora ∈ users
            ∧ ∀ row ∈ [(⟨"123e4567-e89b-12d3-a456-426614174000", "Alice"⟩ : User)],
                row ∈ users)
      ∧ (serve (userHandler.ServeHTTP ⟨Conn.healthy⟩)
          (serve (userHandler.ServeHTTP ⟨Conn.healthy⟩) aliceStore doraPost).1
          ⟨"GET", ""⟩).2.body
        = "[\x7b\"uuid\":\"123e4567-e89b-12d3-a456-426614174000\",\"name\":\"Alice\"\x7d,"
          ++ "\x7b\"uuid\":\"11111111-1111-1111-1111-111111111111\",\"name\":\"Dora\"\x7d]" :=
  ⟨⟨Conn.healthy_silent, rfl, rfl, rfl, rfl, by decide, by decide, by decide⟩,
    post_then_get ⟨Conn.healthy⟩ aliceStore
      [⟨"123e4567-e89b-12d3-a456-426614174000", "Alice"⟩] dora doraPost ⟨"GET", ""⟩
      Conn.healthy_silent rfl rfl rfl rfl (by decide) (by decide) (by decide),
    by decide⟩

/-- C5: a request whose method is neither `GET` nor `POST` gets status 405 from
`userHandler.ServeHTTP`, with the header `Allow` set to exactly `GET, POST`, and
the store is left as it was, journal of calls included: no store operation is made. -/
theorem ServeHTTP_other_method (uh : userHandler) (s : Store) (r : Request)
    (hGet : r.Method ≠ "GET") (hPost : r.Method ≠ "POST") :
    (serve uh.ServeHTTP s r).1 = s
      ∧ (serve uh.ServeHTTP s r).2.status = 405
      ∧ (serve uh.ServeHTTP s r).2.header.Get "Allow" = some "GET, POST" := by
  have hw : (ResponseWriter.fresh.SetHeader "Allow" "GET, POST").wroteHeader = false := rfl
  obtain ⟨h1, h2, _, h4⟩ :=
    httpError_spec (ResponseWriter.fresh.SetHeader "Allow" "GET, POST") "Method Not Allowed"
      StatusMethodNotAllowed hw
  simp only [serve, userHandler.ServeHTTP, if_neg hGet, if_neg hPost, finishRequest, h1, h2, h4,
    if_true, true_and]
  refine ⟨rfl, ?_⟩
  rw [Header.Get_Set_of_ne _ _ _ _ (by decide), Header.Get_Set_of_ne _ _ _ _ (by decide),
    Header.Get_Del_of_ne _ _ _ (by decide)]
  exact Header.Get_Set_self _ _ _

/-- Witness for C5: a `DELETE` on a store holding one row. -/
theorem ServeHTTP_other_method_witness :
    ("DELETE" ≠ "GET" ∧ "DELETE" ≠ "POST")
      ∧ (serve (userHandler.ServeHTTP ⟨Conn.healthy⟩) ⟨some [⟨"k", "Ann"⟩], []⟩
            ⟨"DELETE", ""⟩).1 = ⟨some [⟨"k", "Ann"⟩], []⟩
      ∧ (serve (userHandler.ServeHTTP ⟨Conn.healthy⟩) ⟨some [⟨"k", "Ann"⟩], []⟩
            ⟨"DELETE", ""⟩).2.status = 405
      ∧ (serve (userHandler.ServeHTTP ⟨Conn.healthy⟩) ⟨some [⟨"k", "Ann"⟩], []⟩
            ⟨"DELETE", ""⟩).2.header.Get "Allow" = some "GET, POST" :=
  ⟨⟨by decide, by decide⟩,
    ServeHTTP_other_method ⟨Conn.healthy⟩ ⟨some [⟨"k", "Ann"⟩], []⟩ ⟨"DELETE", ""⟩
      (by decide) (by decide)⟩

/-- C6: on an `OPTIONS` request the handler returned by `corsMiddleware` answers
200 with an empty body and the three cross-origin headers, whatever handler it
wraps and whatever the state; the state comes back as it went in, so the wrapped
handler was not run and the store was neither read nor written. -/
theorem corsMiddleware_options {σ : Type} (next : Handler σ) (s : σ) (r : Request)
    (hm : r.Method = "OPTIONS") :
    serve (corsMiddleware next) s r =
      (s, { status := 200,
            header := ⟨[("Access-Control-Allow-Origin", "*"),
                        ("Access-Control-Allow-Methods", "GET, POST, OPTIONS"),
                        ("Access-Control-Allow-Headers", "Content-Type")]⟩,
            body := "" }) := by
  simp only [serve, corsMiddleware, hm, if_true]
  rfl

/-- Witness for C6: the wrapped handler is the `/users` handler, the request an
`OPTIONS` carrying a body that a `POST` would have stored. -/
theorem corsMiddleware_options_witness :
    (⟨"OPTIONS", "\x7b\"uuid\":\"u1\",\"name\":\"Eve\"\x7d"⟩ : Request).Method = "OPTIONS"
      ∧ serve (corsMiddleware (userHandler.ServeHTTP ⟨Conn.healthy⟩)) ⟨some [], []⟩
          ⟨"OPTIONS", "\x7b\"uuid\":\"u1\",\"name\":\"Eve\"\x7d"⟩ =
        (⟨some [], []⟩,
          { status := 200,
            header := ⟨[("Access-Control-Allow-Origin", "*"),
                        ("Access-Control-Allow-Methods", "GET, POST, OPTIONS"),
                        ("Access-Control-Allow-Headers", "Content-Type")]⟩,
            body := "" }) :=
  ⟨rfl, corsMiddleware_options _ _ _ rfl⟩

/-- C7: whatever the request and whatever the connection reports, the response
of `corsMiddleware(userHandler)` carries `Access-Control-Allow-Origin: *`,
`Access-Control-Allow-Methods: GET, POST, OPTIONS` and
`Access-Control-Allow-Headers: Content-Type`. -/
theorem cors_headers_always (uh : userHandler) (s : Store) (r : Request) :
    (serve (corsMiddleware uh.ServeHTTP) s r).2.header.Get "Access-Control-Allow-Origin"
        = some "*"
      ∧ (serve (corsMiddleware uh.ServeHTTP) s r).2.header.Get "Access-Control-Allow-Methods"
        = some "GET, POST, OPTIONS"
      ∧ (serve (corsMiddleware uh.ServeHTTP) s r).2.header.Get "Access-Control-Allow-Headers"
        = some "Content-Type" := by
  by_cases hm : r.Method = "OPTIONS"
  · simp only [serve, corsMiddleware, hm, if_true]
    exact ⟨rfl, rfl, rfl⟩
  · have hw : (((ResponseWriter.fresh.SetHeader "Access-Control-Allow-Origin" "*").SetHeader
        "Access-Control-Allow-Methods" "GET, POST, OPTIONS").SetHeader
        "Access-Control-Allow-Headers" "Content-Type").wroteHeader = false := rfl
    have key : ∀ k, ¬ ownHeader k →
        (serve (corsMiddleware uh.ServeHTTP) s r).2.header.Get k =
          (((ResponseWriter.fresh.SetHeader "Access-Control-Allow-Origin" "*").SetHeader
            "Access-Control-Allow-Methods" "GET, POST, OPTIONS").SetHeader
            "Access-Control-Allow-Headers" "Content-Type").header.Get k := by
      intro k hk
      obtain ⟨h1, h2⟩ := ServeHTTP_frame uh s _ r hw k hk
      simp only [serve, corsMiddleware, if_neg hm, finishRequest, h1, if_true]
      exact h2
    refine ⟨?_, ?_, ?_⟩
    · rw [key _ (by unfold ownHeader; decide)]; decide
    · rw [key _ (by unfold ownHeader; decide)]; decide
    · rw [key _ (by unfold ownHeader; decide)]; decide

/-- C8: on a store whose keys are distinct and a connection whose `Exec`
reports nothing, creating the table and inserting the seed rows raises no error
and leaves a table that holds the three seed uuids, holds every row that was
there as it was (a stored row that uses a seed uuid is the only row of that
uuid afterwards), has no duplicate uuid and holds nothing but old rows and seed
rows; running the two steps a second time raises no error and leaves the same table. -/
theorem setupUsers_idempotent (db : Conn) (s : Store) (hc : db.execErr = none)
    (hwf : distinctKeys (s.users.getD [])) :
    ∃ t1 : List User,
      (setupUsers db s).2 = .ok ()
        ∧ (setupUsers db s).1.users = some t1
        ∧ (∀ u ∈ seedUsers, u.UUID ∈ t1.map User.UUID)
        ∧ (∀ row ∈ s.users.getD [], row ∈ t1)
        ∧ (∀ row ∈ s.users.getD [], ∀ row1 ∈ t1, row1.UUID = row.UUID → row1 = row)
        ∧ distinctKeys t1
        ∧ (∀ row ∈ t1, row ∈ s.users.getD [] ∨ row ∈ seedUsers)
        ∧ (setupUsers db (setupUsers db s).1).2 = .ok ()
        ∧ (setupUsers db (setupUsers db s).1).1.users = some t1 := by
  obtain ⟨extra, h1, h2, h3, h4⟩ := setupUsers_result db s hc
  have hd : distinctKeys (s.users.getD [] ++ extra) := h4 hwf
  have hold : ∀ row ∈ s.users.getD [], row ∈ s.users.getD [] ++ extra :=
    fun row hr => List.mem_append_left _ hr
  -- the second run finds every seed key taken
  have hnoop : insertOrKeep (s.users.getD [] ++ extra) seedUsers
      = .ok (s.users.getD [] ++ extra) :=
    insertOrKeep_noop seedUsers seedUsers_fit _ h3
  have hsecond : setupUsers db (setupUsers db s).1 =
      ({ users := some (s.users.getD [] ++ extra),
         journal := (setupUsers db s).1.journal ++ [.exec createTableQuery []]
           ++ [.exec insertInitialUsersQuery []] }, .ok ()) := by
    rw [h1]
    simp [setupUsers, Conn.Exec, Conn.execute, hc, runCommand, createTableQuery,
      insertInitialUsersQuery, hnoop, Except.map]
  refine ⟨s.users.getD [] ++ extra, by rw [h1], by rw [h1], ?_, hold, ?_, hd, ?_,
    by rw [hsecond], by rw [hsecond]⟩
  · intro u hu
    obtain ⟨row, hr, he⟩ := (hasKey_iff _ _).1 (h3 u hu)
    exact List.mem_map.2 ⟨row, hr, he⟩
  · intro row hr row1 hr1 he
    exact List.inj_on_of_nodup_map hd hr1 (hold row hr) he
  · intro row hr
    rcases List.mem_append.1 hr with h | h
    · exact Or.inl h
    · exact Or.inr (h2 row h)

/-- Witness for C8: the table already holds a row under the uuid of `Bob`. -/
theorem setupUsers_idempotent_witness :
    (Conn.healthy.execErr = none ∧ distinctKeys (zedStore.users.getD []))
      ∧ ∃ t1 : List User,
        (setupUsers Conn.healthy zedStore).2 = .ok ()
          ∧ (setupUsers Conn.healthy zedStore).1.users = some t1
          ∧ (∀ u ∈ seedUsers, u.UUID ∈ t1.map User.UUID)
          ∧ (∀ row ∈ zedStore.users.getD [], row ∈ t1)
          ∧ (∀ row ∈ zedStore.users.getD [], ∀ row1 ∈ t1, row1.UUID = row.UUID → row1 = row)
          ∧ distinctKeys t1
          ∧ (∀ row ∈ t1, row ∈ zedStore.users.getD [] ∨ row ∈ seedUsers)
          ∧ (setupUsers Conn.healthy (setupUsers Conn.healthy zedStore).1).2 = .ok ()
          ∧ (setupUsers Conn.healthy (setupUsers Conn.healthy zedStore).1).1.users = some t1 :=
  ⟨⟨rfl, by decide⟩,
    setupUsers_idempotent Conn.healthy zedStore rfl (by decide)⟩

/-- C9: when the body does not decode into a `User`, `createUser` answers 400,
the body being the decoder's error text as `http.Error` writes it (the text and
a line feed), and the store comes back as it went in, journal of calls included:
nothing was prepared or executed. -/
theorem createUser_decode_error (uh : userHandler) (s : Store) (r : Request) (err : String)
    (hd : jsonDecode r.Body = .error err) :
    (serve uh.createUser s r).1 = s
      ∧ (serve uh.createUser s r).2.status = 400
      ∧ (serve uh.createUser s r).2.body = err ++ "\n" := by
  obtain ⟨h1, h2, h3, _⟩ :=
    httpError_spec ResponseWriter.fresh err StatusBadRequest rfl
  simp only [serve, userHandler.createUser, hd, finishRequest, h1, h2, h3, if_true, true_and]
  exact ⟨rfl, by simp [ResponseWriter.fresh]⟩

/-- Witness for C9: a body whose object key is not quoted. -/
theorem createUser_decode_error_witness :
    jsonDecode (⟨"POST", "\x7buuid:1\x7d"⟩ : Request).Body
        = .error "invalid character 'u' looking for beginning of object key string"
      ∧ (serve (userHandler.createUser ⟨Conn.healthy⟩) ⟨some [], []⟩ ⟨"POST", "\x7buuid:1\x7d"⟩).1
        = ⟨some [], []⟩
      ∧ (serve (userHandler.createUser ⟨Conn.healthy⟩) ⟨some [], []⟩
          ⟨"POST", "\x7buuid:1\x7d"⟩).2.status = 400
      ∧ (serve (userHandler.createUser ⟨Conn.healthy⟩) ⟨some [], []⟩ ⟨"POST", "\x7buuid:1\x7d"⟩).2.body
        = "invalid character 'u' looking for beginning of object key string" ++ "\n" :=
  ⟨rfl, createUser_decode_error ⟨Conn.healthy⟩ ⟨some [], []⟩ ⟨"POST", "\x7buuid:1\x7d"⟩ _ rfl⟩

/-- C10 (amended): `getUsers` leaves the table as it was; it answers 500 exactly
when the store reports an error (from the query, from the scan of a row, or from
the iteration), and the body is then a reported error text as `http.Error`
writes it; otherwise it answers 200 with `Content-Type: application/json`, and
the body reads as a JSON array with one `uuid`/`name` object per stored row, in
the order of the store, when there is a row, and is the JSON text `null` when
there is none. -/
theorem getUsers_spec (uh : userHandler) (s : Store) (r : Request) :
    (serve uh.getUsers s r).1.users = s.users
      ∧ ((serve uh.getUsers s r).2.status = 500 ↔ ∃ err, reports uh s err)
      ∧ ((serve uh.getUsers s r).2.status = 500 →
          ∃ err, reports uh s err ∧ (serve uh.getUsers s r).2.body = err ++ "\n")
      ∧ ((serve uh.getUsers s r).2.status ≠ 500 →
          (serve uh.getUsers s r).2.status = 200
            ∧ (serve uh.getUsers s r).2.header.Get "Content-Type" = some "application/json"
            ∧ ∃ t, s.users = some t
                ∧ (t = [] → (serve uh.getUsers s r).2.body = "null")
                ∧ (t ≠ [] → parseUserArray (serve uh.getUsers s r).2.body = some t)) := by
  have hstore : (serve uh.getUsers s r).1.users = s.users := by
    have hq := QueryContext_users uh.db s getUsersQuery
    simp only [serve, userHandler.getUsers]
    rcases hqq : uh.db.QueryContext s getUsersQuery with ⟨s1, res⟩
    rw [hqq] at hq
    simp only at hq
    cases res with
    | error err => exact hq
    | ok rows =>
      simp only
      split
      · exact hq
      · split
        · exact hq
        · split <;> exact hq
  refine ⟨hstore, ?_⟩
  rw [getUsers_response]
  unfold reports
  rw [QueryContext_result]
  cases hsel : uh.db.select s.users with
  | error err =>
    simp only [finishRequest_httpError]
    refine ⟨⟨fun _ => ⟨err, Or.inl rfl⟩, fun _ => trivial⟩, fun _ => ⟨err, Or.inl rfl, rfl⟩, ?_⟩
    intro h
    exact absurd rfl h
  | ok rows =>
    simp only
    cases hs : userHandler.scanUsers rows.cells .nil with
    | error err =>
      have hmem := scanUsers_error _ _ _ hs
      simp only [finishRequest_httpError]
      refine ⟨⟨fun _ => ⟨err, Or.inr ⟨rows, rfl, Or.inl hmem⟩⟩, fun _ => trivial⟩,
        fun _ => ⟨err, Or.inr ⟨rows, rfl, Or.inl hmem⟩, rfl⟩, ?_⟩
      intro h
      exact absurd rfl h
    | ok users =>
      obtain ⟨us, hcells, husers⟩ := scanUsers_ok_inv _ _ _ hs
      simp only
      cases he : rows.err with
      | some err =>
        simp only [finishRequest_httpError]
        refine ⟨⟨fun _ => ⟨err, Or.inr ⟨rows, rfl, Or.inr he⟩⟩, fun _ => trivial⟩,
          fun _ => ⟨err, Or.inr ⟨rows, rfl, Or.inr he⟩, rfl⟩, ?_⟩
        intro h
        exact absurd rfl h
      | none =>
        -- the table exists and every row was delivered
        have htab : ∃ t, s.users = some t ∧ rows = uh.db.rowsOf t := by
          unfold Conn.select at hsel
          cases hq : uh.db.queryErr with
          | some e => simp [hq] at hsel
          | none =>
            cases hu : s.users with
            | none => simp [hq, hu] at hsel
            | some t =>
              simp only [hq, hu, Except.ok.injEq] at hsel
              exact ⟨t, rfl, hsel.symm⟩
        obtain ⟨t, hu, hrows⟩ := htab
        have hust : us = t := by
          subst hrows
          exact rowsOf_all_ok uh.db t us hcells he
        subst hust
        have hnoerr : ¬ ∃ err, (Except.ok rows : Except String Rows) = .error err
            ∨ ∃ rows_1, (Except.ok rows : Except String Rows) = .ok rows_1
              ∧ (Except.error err ∈ rows_1.cells ∨ rows_1.err = some err) := by
          rintro ⟨err, h | ⟨rows1, h1, h2⟩⟩
          · cases h
          · simp only [Except.ok.injEq] at h1
            subst h1
            rcases h2 with h2 | h2
            · rw [hcells] at h2
              simp at h2
            · rw [he] at h2
              cases h2
        rw [husers, foldl_append_nil]
        by_cases hnil : us = []
        · subst hnil
          simp only [if_true, jsonMarshal]
          refine ⟨⟨fun h => absurd h (by decide), fun h => absurd h hnoerr⟩,
            fun h => absurd h (by decide),
            fun _ => ⟨trivial, rfl, [], hu, fun _ => trivial, fun h => absurd rfl h⟩⟩
        · simp only [if_neg hnil, jsonMarshal]
          refine ⟨⟨fun h => absurd h (by decide), fun h => absurd h hnoerr⟩,
            fun h => absurd h (by decide),
            fun _ => ⟨trivial, rfl, us, hu, fun h => absurd h hnil,
              fun h => parseUserArray_marshal us h⟩⟩

/-- Counterexample to C10: on an empty table the store reports no error, and
yet the body of the 200 response is `null`: it does not read as a JSON array,
and it is not the array without elements. -/
theorem getUsers_spec_counterexample :
    (¬ ∃ err, reports ⟨Conn.healthy⟩ ⟨some [], []⟩ err)
      ∧ (serve (userHandler.getUsers ⟨Conn.healthy⟩) ⟨some [], []⟩ ⟨"GET", ""⟩).2.status = 200
      ∧ (serve (userHandler.getUsers ⟨Conn.healthy⟩) ⟨some [], []⟩ ⟨"GET", ""⟩).2.body = "null"
      ∧ parseUserArray
          (serve (userHandler.getUsers ⟨Conn.healthy⟩) ⟨some [], []⟩ ⟨"GET", ""⟩).2.body = none
      ∧ (serve (userHandler.getUsers ⟨Conn.healthy⟩) ⟨some [], []⟩ ⟨"GET", ""⟩).2.body ≠ "[]" := by
  refine ⟨?_, by decide, by decide, by decide, by decide⟩
  rintro ⟨err, h | ⟨rows, h1, h2⟩⟩
  · simp [QueryContext_result, Conn.select, Conn.healthy] at h
  · simp only [QueryContext_result, Conn.select, Conn.healthy, Except.ok.injEq] at h1
    subst h1
    simp [Conn.rowsOf] at h2

/-! ## Further properties -/

/-- Once the body has decoded, an error from the store, at `Prepare` or at
`Exec`, is answered 400 with the error text as `http.Error` writes it, and the
table is left as it was. -/
theorem createUser_store_error (uh : userHandler) (s : Store) (r : Request) (u : User)
    (err : String) (hd : jsonDecode r.Body = .ok u)
    (he : uh.db.prepare s.users insertUserQuery = .error err
      ∨ uh.db.execute s.users insertUserQuery [u.UUID, u.Name] = .error err) :
    (serve uh.createUser s r).2.status = 400
      ∧ (∃ e, (serve uh.createUser s r).2.body = e ++ "\n"
          ∧ (uh.db.prepare s.users insertUserQuery = .error e
            ∨ uh.db.execute s.users insertUserQuery [u.UUID, u.Name] = .error e))
      ∧ (serve uh.createUser s r).1.users = s.users := by
  rw [createUser_decoded uh s r u hd]
  cases hp : uh.db.prepare s.users insertUserQuery with
  | error e =>
    simp only [finishRequest_httpError]
    exact ⟨trivial, ⟨e, rfl, Or.inl rfl⟩, trivial⟩
  | ok stmt =>
    have hq : stmt.q = insertUserQuery := prepare_ok _ _ _ _ hp
    rw [hp] at he
    rcases he with he | he
    · cases he
    · simp only [hq, he, finishRequest_httpError]
      exact ⟨trivial, ⟨err, rfl, Or.inr rfl⟩, trivial⟩

/-- An instance of `createUser_store_error`: the table does not exist. -/
theorem createUser_store_error_witness :
    (jsonDecode (⟨"POST", "\x7b\"uuid\":\"k\",\"name\":\"Bea\"\x7d"⟩ : Request).Body
          = .ok ⟨"k", "Bea"⟩
        ∧ (Conn.healthy.prepare (⟨none, []⟩ : Store).users insertUserQuery
              = .error errNoSuchTable
            ∨ Conn.healthy.execute (⟨none, []⟩ : Store).users insertUserQuery
              [(⟨"k", "Bea"⟩ : User).UUID, (⟨"k", "Bea"⟩ : User).Name] = .error errNoSuchTable))
      ∧ (serve (userHandler.createUser ⟨Conn.healthy⟩) ⟨none, []⟩
          ⟨"POST", "\x7b\"uuid\":\"k\",\"name\":\"Bea\"\x7d"⟩).2.status = 400 :=
  ⟨⟨rfl, Or.inl rfl⟩,
    (createUser_store_error ⟨Conn.healthy⟩ ⟨none, []⟩
      ⟨"POST", "\x7b\"uuid\":\"k\",\"name\":\"Bea\"\x7d"⟩ ⟨"k", "Bea"⟩ errNoSuchTable rfl
      (Or.inl rfl)).1⟩

/-- The seed insert does not depend on the table being empty: on a table that
holds one row under another key, the two steps of `setupUsers` add the three
seed rows after it. -/
theorem setupUsers_nonempty_table :
    (setupUsers Conn.healthy ⟨some [⟨"k", "Ann"⟩], []⟩).1.users
      = some [⟨"k", "Ann"⟩,
          ⟨"123e4567-e89b-12d3-a456-426614174000", "Alice"⟩,
          ⟨"123e4567-e89b-12d3-a456-426614174001", "Bob"⟩,
          ⟨"123e4567-e89b-12d3-a456-426614174002", "Charlie"⟩] := by
  decide

/-- The bytes of a `GET` response on a table of two rows: the JSON array of
the rows in order, the character `<` written as its `u003c` escape. -/
theorem getUsers_two_rows :
    (serve (userHandler.getUsers ⟨Conn.healthy⟩) ⟨some [⟨"a", "b<"⟩, ⟨"c", "d"⟩], []⟩
        ⟨"GET", ""⟩).2
      = { status := 200, header := ⟨[("Content-Type", "application/json")]⟩,
          body := "[\x7b\"uuid\":\"a\",\"name\":\"b\\u003c\"\x7d,"
            ++ "\x7b\"uuid\":\"c\",\"name\":\"d\"\x7d]" } := by
  decide

end SampleGoApp
